import Mathlib

/-!
Shallow embedding of the `TraitCompiler` orchestrator from
`packages/compiler-cli/src/ngtsc/transform/src/compilation.ts`.

Conventions of the embedding:
* Source files are identified by `Nat` ids; class declarations carry their
  identity, owning file and source-position data as plain fields.
* Opaque handler payloads (detection metadata, analysis payloads, resolution
  payloads, constant pools) are represented by `Nat`.
* TypeScript `Map`s are association lists whose iteration order is insertion
  order (matching JavaScript `Map` semantics); `Map.set` replaces an existing
  binding in place.
* A TypeScript call that can `throw` is modelled by the `ThrowOr` result type
  (a `FatalDiagnosticError` carries the diagnostic produced by
  `err.toDiagnostic()`; any other exception carries its message); a function
  that lets exceptions escape returns `Except String`.
-/

set_option autoImplicit false

namespace Ngtsc

/-- Handler precedence from `transform/src/api.ts` (not part of the excerpt).
Modelled from the spec: precedence is one of PRIMARY, WEAK or a default
(`SHARED`). -/
inductive HandlerPrecedence where
  | PRIMARY
  | SHARED
  | WEAK
deriving DecidableEq, Repr

/-- Trait lifecycle states from `transform/src/trait.ts` (not part of the
excerpt). Modelled from the spec, section 4.2: PENDING, ANALYZED, SKIPPED,
ERRORED, RESOLVED. -/
inductive TraitState where
  | PENDING
  | ANALYZED
  | SKIPPED
  | ERRORED
  | RESOLVED
deriving DecidableEq, Repr

/-- The fields of a `ts.Diagnostic` that the orchestrator populates. -/
structure Diagnostic where
  code : Int
  file : Nat
  start : Nat
  length : Nat
  messageText : String
deriving DecidableEq, Repr

/-- A named class declaration: identity, name, owning source file,
source-position data (`getStart`/`getWidth`) and whether it is exported. -/
structure ClassDeclaration where
  id : Nat
  name : String
  file : Nat
  start : Nat
  width : Nat
  exported : Bool
deriving DecidableEq, Repr

/-- Result of a call that may throw: a normal return, a thrown
`FatalDiagnosticError` (carrying the diagnostic of `err.toDiagnostic()`), or
any other thrown error (carrying its message). -/
inductive ThrowOr (α : Type) where
  | ret (a : α)
  | throwFatal (d : Diagnostic)
  | throwOther (msg : String)

/-- `AnalysisOutput` from `transform/src/api.ts`: optional analysis payload,
optional diagnostics, optional generated factory symbol name. -/
structure AnalysisOutput where
  analysis : Option Nat
  diagnostics : Option (List Diagnostic)
  factorySymbolName : Option String

/-- A re-export request emitted by a handler during resolution. -/
structure Reexport where
  fromModule : String
  symbolName : String
  asAlias : String
deriving DecidableEq, Repr

/-- `ResolveResult` from `transform/src/api.ts`: optional resolution payload,
optional diagnostics, optional re-export requests. -/
structure ResolveResult where
  data : Option Nat
  diagnostics : Option (List Diagnostic)
  reexports : Option (List Reexport)

/-- A single compile result: a generated field name plus an opaque
initializer. -/
structure CompileResult where
  name : String
  initializer : Nat
deriving DecidableEq, Repr

/-- `DecoratorHandler.compile` returns either one result or an array of
results. -/
inductive CompileOutput where
  | one (r : CompileResult)
  | many (rs : List CompileResult)

/-- A `DecoratorHandler`: precedence plus the detect/analyze/resolve/compile
capabilities the orchestrator consumes (`resolve` is optional; `typeCheck` and
`index` are not needed by any theorem below and are omitted). -/
structure Handler where
  name : String
  precedence : HandlerPrecedence
  detect : ClassDeclaration → Option Nat
  analyze : ClassDeclaration → Nat → ThrowOr AnalysisOutput
  resolve : Option (ClassDeclaration → Option Nat → ThrowOr ResolveResult)
  compile : ClassDeclaration → Option Nat → Option Nat → Nat → CompileOutput

/-- `handler.precedence === HandlerPrecedence.PRIMARY`. -/
def Handler.isPrimary (h : Handler) : Bool :=
  match h.precedence with
  | HandlerPrecedence.PRIMARY => true
  | _ => false

/-- `handler.precedence === HandlerPrecedence.WEAK`. -/
def Handler.isWeak (h : Handler) : Bool :=
  match h.precedence with
  | HandlerPrecedence.WEAK => true
  | _ => false

/-- A `Trait` from `transform/src/trait.ts` (not part of the excerpt).
Modelled from the spec, section 3: immutable handler + detection payload,
mutable lifecycle state with analysis/resolution payloads and diagnostics. -/
structure Trait where
  handler : Handler
  detected : Nat
  state : TraitState
  analysis : Option Nat
  resolution : Option Nat
  diagnostics : List Diagnostic

/-- `Trait.pending(handler, detected)`: a freshly detected trait. Modelled
from the spec (`trait.ts` is not part of the excerpt). -/
def Trait.pending (h : Handler) (detected : Nat) : Trait :=
  { handler := h, detected := detected, state := TraitState.PENDING,
    analysis := none, resolution := none, diagnostics := [] }

/-- `trait.toAnalyzed(analysis)`. Modelled from the spec, sections 4.2 and 9:
state transitions are in-place mutations of the trait observed through the
record that owns it. -/
def Trait.toAnalyzed (t : Trait) (a : Nat) : Trait :=
  { t with state := TraitState.ANALYZED, analysis := some a }

/-- `trait.toSkipped()`. Modelled from the spec, section 4.2. -/
def Trait.toSkipped (t : Trait) : Trait :=
  { t with state := TraitState.SKIPPED }

/-- `trait.toErrored(diagnostics)`. Modelled from the spec, section 4.2. -/
def Trait.toErrored (t : Trait) (ds : List Diagnostic) : Trait :=
  { t with state := TraitState.ERRORED, diagnostics := ds }

/-- `trait.toResolved(resolution)` (`none` is a null resolution). Modelled
from the spec, section 4.2. -/
def Trait.toResolved (t : Trait) (r : Option Nat) : Trait :=
  { t with state := TraitState.RESOLVED, resolution := r }

/-- `ClassRecord` from `compilation.ts`. -/
structure ClassRecord where
  node : ClassDeclaration
  traits : List Trait
  metaDiagnostics : Option (List Diagnostic)
  hasWeakHandlers : Bool
  hasPrimaryHandler : Bool

/-- Association-list update with JavaScript `Map.set` semantics: replace the
binding in place if the key is present, append otherwise. -/
def alistSet {α β : Type} [DecidableEq α] : List (α × β) → α → β → List (α × β)
  | [], k, v => [(k, v)]
  | (k', v') :: rest, k, v =>
    if k' = k then (k, v) :: rest else (k', v') :: alistSet rest k v

/-- Association-list lookup (`Map.get`). -/
def alistGet? {α β : Type} [DecidableEq α] : List (α × β) → α → Option β
  | [], _ => none
  | (k', v') :: rest, k => if k' = k then some v' else alistGet? rest k

/-- The per-file re-export table: file → (alias → (module specifier, symbol
name)). -/
abbrev ReexportMap := List (Nat × List (String × (String × String)))

/-- The mutable fields of `TraitCompiler`: the declaration → record map, the
file → declarations index, and the per-file re-export table. -/
structure CompilerState where
  classes : List (ClassDeclaration × ClassRecord)
  fileToClasses : List (Nat × List ClassDeclaration)
  reexportMap : ReexportMap

/-- The error code of the collision diagnostic:
`Number('-99' + ErrorCode.DECORATOR_COLLISION)` with
`ErrorCode.DECORATOR_COLLISION = 1006` in `ngtsc/diagnostics` (not part of the
excerpt). -/
def decoratorCollisionCode : Int := -991006

/-- The "incompatible decorators" meta-diagnostic, anchored at the class. -/
def collisionDiag (clazz : ClassDeclaration) : Diagnostic :=
  { code := decoratorCollisionCode, file := clazz.file, start := clazz.start,
    length := clazz.width, messageText := "Two incompatible decorators on class" }

/-- The tail of the slow path of `scanClassForTraits` (from the PRIMARY
collision check to the append): returns the updated record and whether
matching terminated early with a collision. -/
def scanStep2 (clazz : ClassDeclaration) (trait : Trait) (r : ClassRecord) :
    Option ClassRecord × Bool :=
  if trait.handler.isPrimary && r.hasPrimaryHandler then
    (some { r with metaDiagnostics := some [collisionDiag clazz], traits := [] }, true)
  else
    (some { r with
              traits := r.traits ++ [trait],
              hasPrimaryHandler := r.hasPrimaryHandler || trait.handler.isPrimary }, false)

/-- One iteration of the handler loop of `scanClassForTraits`: detect, fast
path for the first match, WEAK precedence rules, then `scanStep2`. The `Bool`
is true exactly when the loop performed the early collision `return`. -/
def scanStep (clazz : ClassDeclaration) (h : Handler) (record : Option ClassRecord) :
    Option ClassRecord × Bool :=
  match h.detect clazz with
  | none => (record, false)
  | some result =>
    match record with
    | none =>
      (some { node := clazz,
              traits := [Trait.pending h result],
              metaDiagnostics := none,
              hasPrimaryHandler := h.isPrimary,
              hasWeakHandlers := h.isWeak }, false)
    | some r =>
      if !h.isWeak && r.hasWeakHandlers then
        scanStep2 clazz (Trait.pending h result)
          { r with
              traits := r.traits.filter (fun f => !f.handler.isWeak),
              hasWeakHandlers := false }
      else if h.isWeak && !r.hasWeakHandlers then
        (some r, false)
      else
        scanStep2 clazz (Trait.pending h result) r

/-- The handler loop of `scanClassForTraits` over the registry, stopping early
on a PRIMARY collision. -/
def scanLoop (clazz : ClassDeclaration) : List Handler → Option ClassRecord → Option ClassRecord
  | [], record => record
  | h :: hs, record =>
    match scanStep clazz h record with
    | (r, true) => r
    | (r, false) => scanLoop clazz hs r

/-- Insert a class into the file → declarations index (a `Set` per file). -/
def addClassToFile (idx : List (Nat × List ClassDeclaration)) (sf : Nat)
    (clazz : ClassDeclaration) : List (Nat × List ClassDeclaration) :=
  match alistGet? idx sf with
  | none => alistSet idx sf [clazz]
  | some s => alistSet idx sf (if clazz ∈ s then s else s ++ [clazz])

/-- `TraitCompiler.scanClassForTraits`. In the source the record object is
inserted into `classes` and `fileToClasses` at the first match and then
mutated in place through the loop; since nothing reads those maps during the
loop, inserting the final record after the loop is observationally equal. -/
def scanClassForTraits (st : CompilerState) (compileNonExportedClasses : Bool)
    (handlers : List Handler) (clazz : ClassDeclaration) :
    CompilerState × Option ClassRecord :=
  if !compileNonExportedClasses && !clazz.exported then (st, none)
  else
    match scanLoop clazz handlers none with
    | none => (st, none)
    | some record =>
      ({ st with
           classes := alistSet st.classes clazz record,
           fileToClasses := addClassToFile st.fileToClasses clazz.file clazz },
       some record)

/-- Printable state names (`TraitState[trait.state]`). -/
def traitStateName : TraitState → String
  | TraitState.PENDING => "PENDING"
  | TraitState.ANALYZED => "ANALYZED"
  | TraitState.SKIPPED => "SKIPPED"
  | TraitState.ERRORED => "ERRORED"
  | TraitState.RESOLVED => "RESOLVED"

/-- `TraitCompiler.analyzeTrait`: the state guard throws (an internal error),
a `FatalDiagnosticError` from the handler is caught and turns the trait
ERRORED, any other exception propagates; otherwise the trait becomes ERRORED,
ANALYZED or SKIPPED according to the `AnalysisOutput`. (The factory-symbol
bookkeeping writes to the externally owned `sourceToFactorySymbols` map and is
not part of the orchestrator state modelled here.) -/
def analyzeTrait (clazz : ClassDeclaration) (t : Trait) : Except String Trait :=
  if t.state ≠ TraitState.PENDING then
    Except.error
      ("Attempt to analyze trait of " ++ clazz.name ++ " in state " ++
        traitStateName t.state ++ " (expected DETECTED)")
  else
    match t.handler.analyze clazz t.detected with
    | ThrowOr.throwFatal d => Except.ok (t.toErrored [d])
    | ThrowOr.throwOther m => Except.error m
    | ThrowOr.ret result =>
      match result.diagnostics with
      | some ds => Except.ok (t.toErrored ds)
      | none =>
        match result.analysis with
        | some a => Except.ok (t.toAnalyzed a)
        | none => Except.ok t.toSkipped

/-- The per-class trait loop of `analyzeClass` (synchronous path): traits are
analyzed in order; an uncaught exception aborts the loop, leaving the failing
trait and all later traits untouched while earlier in-place updates persist. -/
def analyzeTraits (clazz : ClassDeclaration) : List Trait → List Trait × Option String
  | [] => ([], none)
  | t :: ts =>
    match analyzeTrait clazz t with
    | Except.error m => (t :: ts, some m)
    | Except.ok t' =>
      (t' :: (analyzeTraits clazz ts).1, (analyzeTraits clazz ts).2)

/-- Analyze all traits of one class record. -/
def analyzeRecord (clazz : ClassDeclaration) (record : ClassRecord) :
    ClassRecord × Option String :=
  ({ record with traits := (analyzeTraits clazz record.traits).1 },
   (analyzeTraits clazz record.traits).2)

/-- The analyze sweep over the record map in discovery order; an uncaught
exception aborts the sweep, preserving the progress already made. -/
def analyzeRecords :
    List (ClassDeclaration × ClassRecord) →
      List (ClassDeclaration × ClassRecord) × Option String
  | [] => ([], none)
  | (c, r) :: rest =>
    match analyzeRecord c r with
    | (r', some m) => ((c, r') :: rest, some m)
    | (r', none) =>
      ((c, r') :: (analyzeRecords rest).1, (analyzeRecords rest).2)

/-- The analyze phase as a transformation of the orchestrator state. -/
def analyzePass (st : CompilerState) : CompilerState × Option String :=
  ({ st with classes := (analyzeRecords st.classes).1 }, (analyzeRecords st.classes).2)

/-- `TraitCompiler.resolve`, per trait: SKIPPED and ERRORED traits are passed
over; resolving a PENDING or RESOLVED trait throws an internal error; a
missing resolve capability yields a null resolution; a `FatalDiagnosticError`
is caught into ERRORED; on a normal return the trait becomes ERRORED or
RESOLVED and any re-export requests are reported to the caller. -/
def resolveTrait (clazz : ClassDeclaration) (t : Trait) :
    Except String (Trait × Option (List Reexport)) :=
  match t.state with
  | TraitState.SKIPPED => Except.ok (t, none)
  | TraitState.ERRORED => Except.ok (t, none)
  | TraitState.PENDING =>
    Except.error
      ("Resolving a trait that has not been analyzed: " ++ clazz.name ++ " / " ++
        t.handler.name)
  | TraitState.RESOLVED => Except.error "Resolving an already resolved trait"
  | TraitState.ANALYZED =>
    match t.handler.resolve with
    | none => Except.ok (t.toResolved none, none)
    | some resolveFn =>
      match resolveFn clazz t.analysis with
      | ThrowOr.throwFatal d => Except.ok (t.toErrored [d], none)
      | ThrowOr.throwOther m => Except.error m
      | ThrowOr.ret result =>
        Except.ok
          ((match result.diagnostics with
            | some ds => t.toErrored ds
            | none =>
              match result.data with
              | some d => t.toResolved (some d)
              | none => t.toResolved none),
           result.reexports)

/-- Apply a list of re-export requests to one file's alias map, in order
(`fileReexports.set(alias, [module, symbol])`). -/
def applyAliasWrites (m : List (String × (String × String))) (ws : List Reexport) :
    List (String × (String × String)) :=
  ws.foldl (fun acc w => alistSet acc w.asAlias (w.fromModule, w.symbolName)) m

/-- Merge one trait's re-export requests into the per-file re-export table
keyed by the owning file (creating the file entry if needed). -/
def mergeReexports (rmap : ReexportMap) (file : Nat) (ws : List Reexport) : ReexportMap :=
  alistSet rmap file (applyAliasWrites ((alistGet? rmap file).getD []) ws)

/-- The per-record trait loop of `resolve`, threading the re-export table; the
loop rebuilds the trait list because transitions are in-place updates observed
through the record. -/
def resolveTraits (clazz : ClassDeclaration) (rmap : ReexportMap) :
    List Trait → Except String (List Trait × ReexportMap)
  | [] => Except.ok ([], rmap)
  | t :: ts =>
    match resolveTrait clazz t with
    | Except.error m => Except.error m
    | Except.ok (t', none) =>
      match resolveTraits clazz rmap ts with
      | Except.error m => Except.error m
      | Except.ok (ts', rmap'') => Except.ok (t' :: ts', rmap'')
    | Except.ok (t', some ws) =>
      match resolveTraits clazz (mergeReexports rmap clazz.file ws) ts with
      | Except.error m => Except.error m
      | Except.ok (ts', rmap'') => Except.ok (t' :: ts', rmap'')

/-- The record loop of `resolve` over the class map in discovery order. -/
def resolveRecords (rmap : ReexportMap) :
    List (ClassDeclaration × ClassRecord) →
      Except String (List (ClassDeclaration × ClassRecord) × ReexportMap)
  | [] => Except.ok ([], rmap)
  | (c, r) :: rest =>
    match resolveTraits c rmap r.traits with
    | Except.error m => Except.error m
    | Except.ok (ts, rmap') =>
      match resolveRecords rmap' rest with
      | Except.error m => Except.error m
      | Except.ok (rest', rmap'') =>
        Except.ok ((c, { r with traits := ts }) :: rest', rmap'')

/-- A directive member of a compilation scope: its owning file and whether it
is a component. -/
structure ScopeDirective where
  file : Nat
  isComponent : Bool
deriving DecidableEq, Repr

/-- A compilation scope from the scope registry: the file of the declaration
under analysis, the file of the NgModule (the container), and the member
directives and pipes in scope (pipes by owning file). -/
structure CompilationScope where
  declFile : Nat
  ngModuleFile : Nat
  directives : List ScopeDirective
  pipes : List Nat
deriving Repr

/-- The incremental driver's file dependency graph: the edge `(a, b)` records
that a change to file `a` invalidates file `b`. -/
abbrev DepGraph := List (Nat × Nat)

/-- `incrementalDriver.trackFileDependency(from, to)`. -/
def trackFileDependency (g : DepGraph) (fromFile toFile : Nat) : DepGraph :=
  if (fromFile, toFile) ∈ g then g else g ++ [(fromFile, toFile)]

/-- `incrementalDriver.trackFileDependencies(deps, to)`. -/
def trackFileDependencies (g : DepGraph) (deps : List Nat) (toFile : Nat) : DepGraph :=
  deps.foldl (fun acc d => trackFileDependency acc d toFile) g

/-- `incrementalDriver.getFileDependencies(file)`: the files whose change
invalidates `file`. -/
def getFileDependencies (g : DepGraph) (file : Nat) : List Nat :=
  (g.filter (fun e => e.2 == file)).map Prod.fst

/-- The body of `recordNgModuleScopeDependencies` for one scope. -/
def recordScopeDeps (g : DepGraph) (scope : CompilationScope) : DepGraph :=
  let file := scope.declFile
  let ngModuleFile := scope.ngModuleFile
  let deps := getFileDependencies g file
  let g1 := trackFileDependencies g deps ngModuleFile
  let g2 := trackFileDependency g1 ngModuleFile file
  let g3 := scope.directives.foldl
    (fun acc directive =>
      let acc1 := trackFileDependency acc directive.file file
      if directive.isComponent then trackFileDependencies acc1 deps directive.file
      else acc1)
    g2
  scope.pipes.foldl (fun acc p => trackFileDependency acc p file) g3

/-- `TraitCompiler.recordNgModuleScopeDependencies` over all compilation
scopes. -/
def recordNgModuleScopeDependencies (scopes : List CompilationScope) (g : DepGraph) :
    DepGraph :=
  scopes.foldl recordScopeDeps g

/-- `TraitCompiler.resolve`: the global resolution pass followed by the
dependency recording; an uncaught exception aborts before dependencies are
recorded. -/
def TraitCompiler.resolve (st : CompilerState) (scopes : List CompilationScope)
    (g : DepGraph) : Except String (CompilerState × DepGraph) :=
  match resolveRecords st.reexportMap st.classes with
  | Except.error m => Except.error m
  | Except.ok (cls, rmap) =>
    Except.ok ({ st with classes := cls, reexportMap := rmap },
               recordNgModuleScopeDependencies scopes g)

/-- `res.some(r => r.name === result.name) ? res : res.push(result)`. -/
def dedupPush (res : List CompileResult) (r : CompileResult) : List CompileResult :=
  if res.any (fun x => x.name == r.name) then res else res ++ [r]

/-- The trait loop of `TraitCompiler.compile`: non-RESOLVED traits are
skipped; each compile output (single result or array) is appended with
name-based deduplication, earlier results winning. -/
def compileTraits (clazz : ClassDeclaration) (pool : Nat) :
    List Trait → List CompileResult → List CompileResult
  | [], res => res
  | t :: ts, res =>
    if t.state ≠ TraitState.RESOLVED then compileTraits clazz pool ts res
    else
      match t.handler.compile clazz t.analysis t.resolution pool with
      | CompileOutput.many rs => compileTraits clazz pool ts (rs.foldl dedupPush res)
      | CompileOutput.one r => compileTraits clazz pool ts (dedupPush res r)

/-- The argument of `TraitCompiler.compile`: the (possibly transformed) node,
its `ts.getOriginalNode`, and the two `isNamedClassDeclaration` guards. -/
structure InputDecl where
  clazz : ClassDeclaration
  original : ClassDeclaration
  clazzIsNamedClass : Bool
  originalIsNamedClass : Bool

/-- The declaration-file transform registry, reduced to the `addFields`
registrations it receives: each call appends (original declaration, produced
fields). -/
abbrev DtsTransforms := List (ClassDeclaration × List CompileResult)

/-- `TraitCompiler.compile(clazz, constantPool)`: null when the guards fail or
the original declaration has no record; otherwise compiles every RESOLVED
trait with deduplication, always registers the produced fields against the
declaration-file transform keyed by the original declaration, and returns null
exactly when the deduplicated result list is empty. -/
def TraitCompiler.compile (st : CompilerState) (dts : DtsTransforms) (d : InputDecl)
    (pool : Nat) : Option (List CompileResult) × DtsTransforms :=
  if !d.clazzIsNamedClass || !d.originalIsNamedClass then (none, dts)
  else
    match alistGet? st.classes d.original with
    | none => (none, dts)
    | some record =>
      let res := compileTraits d.clazz pool record.traits []
      ((if res.length > 0 then some res else none), dts ++ [(d.original, res)])

end Ngtsc

namespace Ngtsc

/-! ### Helper lemmas about precedence flags -/

theorem isPrimary_iff_precedence {h : Handler} :
    h.isPrimary = true ↔ h.precedence = HandlerPrecedence.PRIMARY := by
  rcases h with ⟨nm, p, de, an, re, co⟩
  cases p <;> simp [Handler.isPrimary]

theorem isWeak_iff_precedence {h : Handler} :
    h.isWeak = true ↔ h.precedence = HandlerPrecedence.WEAK := by
  rcases h with ⟨nm, p, de, an, re, co⟩
  cases p <;> simp [Handler.isWeak]

theorem isWeak_false_of_isPrimary {h : Handler} (hp : h.isPrimary = true) :
    h.isWeak = false := by
  rcases h with ⟨nm, p, de, an, re, co⟩
  cases p <;> simp_all [Handler.isPrimary, Handler.isWeak]

theorem isPrimary_false_of_isWeak {h : Handler} (hw : h.isWeak = true) :
    h.isPrimary = false := by
  rcases h with ⟨nm, p, de, an, re, co⟩
  cases p <;> simp_all [Handler.isPrimary, Handler.isWeak]

/-! ### The matching invariant -/

/-- The derived flags of a record are consistent with its trait list. -/
def flagsOk (r : ClassRecord) : Prop :=
  (r.hasPrimaryHandler = true → ∃ t ∈ r.traits, t.handler.isPrimary = true) ∧
  (r.hasPrimaryHandler = false → ∀ t ∈ r.traits, t.handler.isPrimary = false) ∧
  (r.hasWeakHandlers = true → ∀ t ∈ r.traits, t.handler.isWeak = true) ∧
  (r.hasWeakHandlers = false → ∀ t ∈ r.traits, t.handler.isWeak = false)

/-- Number of traits coming from a PRIMARY-precedence handler. -/
def countPrimary (ts : List Trait) : Nat :=
  (ts.filter (fun t => t.handler.isPrimary)).length

/-- Invariant of a record while matching is still running (no collision). -/
def midGood (clazz : ClassDeclaration) (r : ClassRecord) : Prop :=
  r.node = clazz ∧ r.metaDiagnostics = none ∧ r.traits ≠ [] ∧ flagsOk r ∧
    countPrimary r.traits ≤ 1

/-- Invariant of a record after a fatal PRIMARY collision. -/
def collided (clazz : ClassDeclaration) (r : ClassRecord) : Prop :=
  r.node = clazz ∧ r.metaDiagnostics = some [collisionDiag clazz] ∧ r.traits = []

theorem countPrimary_append (a b : List Trait) :
    countPrimary (a ++ b) = countPrimary a + countPrimary b := by
  simp [countPrimary, List.filter_append]

theorem countPrimary_eq_zero {ts : List Trait}
    (h : ∀ t ∈ ts, t.handler.isPrimary = false) : countPrimary ts = 0 := by
  simp only [countPrimary, List.length_eq_zero]
  exact List.filter_eq_nil_iff.mpr (by intro t ht; simp [h t ht])

theorem scanStep2_spec (clazz : ClassDeclaration) (h : Handler) (res : Nat)
    (r : ClassRecord) (hnode : r.node = clazz) (hmeta : r.metaDiagnostics = none)
    (hflags : flagsOk r) (hcount : countPrimary r.traits ≤ 1)
    (hmatch : h.isWeak = r.hasWeakHandlers) :
    (∃ r', scanStep2 clazz (Trait.pending h res) r = (some r', true) ∧ collided clazz r') ∨
    (∃ r', scanStep2 clazz (Trait.pending h res) r = (some r', false) ∧ midGood clazz r') := by
  obtain ⟨hp1, hp0, hw1, hw0⟩ := hflags
  unfold scanStep2
  by_cases hcol : (h.isPrimary && r.hasPrimaryHandler) = true
  · left
    rw [show (Trait.pending h res).handler = h from rfl, if_pos hcol]
    exact ⟨_, rfl, hnode, rfl, rfl⟩
  · right
    rw [show (Trait.pending h res).handler = h from rfl, if_neg hcol]
    refine ⟨_, rfl, hnode, hmeta, by simp, ⟨?_, ?_, ?_, ?_⟩, ?_⟩
    · intro hp
      rcases (Bool.or_eq_true _ _).mp hp with hr | hh
      · obtain ⟨t, ht, htp⟩ := hp1 hr
        exact ⟨t, List.mem_append_left _ ht, htp⟩
      · exact ⟨Trait.pending h res, List.mem_append_right _ (by simp), hh⟩
    · intro hp t ht
      rw [Bool.or_eq_false_iff] at hp
      rcases List.mem_append.mp ht with ht | ht
      · exact hp0 hp.1 t ht
      · simp only [List.mem_singleton] at ht
        subst ht
        exact hp.2
    · intro hw t ht
      rcases List.mem_append.mp ht with ht | ht
      · exact hw1 hw t ht
      · simp only [List.mem_singleton] at ht
        subst ht
        show h.isWeak = true
        rw [hmatch, hw]
    · intro hw t ht
      rcases List.mem_append.mp ht with ht | ht
      · exact hw0 hw t ht
      · simp only [List.mem_singleton] at ht
        subst ht
        show h.isWeak = false
        rw [hmatch, hw]
    · rw [countPrimary_append]
      by_cases hhp : h.isPrimary = true
      · have hrp : r.hasPrimaryHandler = false := by
          cases hb : r.hasPrimaryHandler
          · rfl
          · exact absurd (by rw [hhp, hb]; rfl) hcol
        have h0 : countPrimary r.traits = 0 := countPrimary_eq_zero (hp0 hrp)
        have h1 : countPrimary [Trait.pending h res] ≤ 1 :=
          le_trans (List.length_filter_le _ _) (by simp)
        omega
      · have h0 : countPrimary [Trait.pending h res] = 0 := by
          apply countPrimary_eq_zero
          intro t ht
          simp only [List.mem_singleton] at ht
          subst ht
          show h.isPrimary = false
          cases hb : h.isPrimary
          · rfl
          · exact absurd hb hhp
        omega

end Ngtsc

namespace Ngtsc

theorem countPrimary_filter_le (ts : List Trait) (p : Trait → Bool) :
    countPrimary (ts.filter p) ≤ countPrimary ts := by
  simp only [countPrimary]
  exact List.Sublist.length_le (List.Sublist.filter _ (List.filter_sublist _))

theorem scanStep_eq_none (clazz : ClassDeclaration) (h : Handler)
    (record : Option ClassRecord) (hdet : h.detect clazz = none) :
    scanStep clazz h record = (record, false) := by
  unfold scanStep
  rw [hdet]

theorem scanStep_eq_some_none (clazz : ClassDeclaration) (h : Handler) (res : Nat)
    (hdet : h.detect clazz = some res) :
    scanStep clazz h none =
      (some { node := clazz,
              traits := [Trait.pending h res],
              metaDiagnostics := none,
              hasPrimaryHandler := h.isPrimary,
              hasWeakHandlers := h.isWeak }, false) := by
  unfold scanStep
  rw [hdet]

theorem scanStep_eq_some_some (clazz : ClassDeclaration) (h : Handler) (res : Nat)
    (r : ClassRecord) (hdet : h.detect clazz = some res) :
    scanStep clazz h (some r) =
      (if !h.isWeak && r.hasWeakHandlers then
        scanStep2 clazz (Trait.pending h res)
          { r with
              traits := r.traits.filter (fun f => !f.handler.isWeak),
              hasWeakHandlers := false }
      else if h.isWeak && !r.hasWeakHandlers then
        (some r, false)
      else
        scanStep2 clazz (Trait.pending h res) r) := by
  unfold scanStep
  rw [hdet]

theorem scanLoop_cons (clazz : ClassDeclaration) (h : Handler) (hs : List Handler)
    (record : Option ClassRecord) :
    scanLoop clazz (h :: hs) record =
      (match scanStep clazz h record with
       | (r, true) => r
       | (r, false) => scanLoop clazz hs r) := rfl

theorem scanStep_spec (clazz : ClassDeclaration) (h : Handler) (record : Option ClassRecord)
    (hrec : record = none ∨ ∃ r, record = some r ∧ midGood clazz r) :
    (∃ out, scanStep clazz h record = (out, false) ∧
       (out = none ∨ ∃ r', out = some r' ∧ midGood clazz r')) ∨
    (∃ r', scanStep clazz h record = (some r', true) ∧ collided clazz r') := by
  cases hdet : h.detect clazz with
  | none =>
    rw [scanStep_eq_none clazz h record hdet]
    exact Or.inl ⟨record, rfl, hrec⟩
  | some res =>
    rcases hrec with hnone | ⟨r, hsome, hmid⟩
    · subst hnone
      rw [scanStep_eq_some_none clazz h res hdet]
      left
      refine ⟨_, rfl, Or.inr ⟨_, rfl, rfl, rfl, by simp, ⟨?_, ?_, ?_, ?_⟩, ?_⟩⟩
      · intro hp
        exact ⟨Trait.pending h res, by simp, hp⟩
      · intro hp t ht
        simp only [List.mem_singleton] at ht
        subst ht
        exact hp
      · intro hw t ht
        simp only [List.mem_singleton] at ht
        subst ht
        exact hw
      · intro hw t ht
        simp only [List.mem_singleton] at ht
        subst ht
        exact hw
      · exact le_trans (List.length_filter_le _ _) (by simp)
    · subst hsome
      obtain ⟨hnode, hmeta, hne, hflags, hcount⟩ := hmid
      rw [scanStep_eq_some_some clazz h res r hdet]
      by_cases hb1 : (!h.isWeak && r.hasWeakHandlers) = true
      · rw [if_pos hb1]
        have hwf : h.isWeak = false := by
          rcases Bool.and_eq_true _ _ |>.mp hb1 with ⟨hb, _⟩
          cases hq : h.isWeak
          · rfl
          · rw [hq] at hb; exact absurd hb (by simp)
        have hspec := scanStep2_spec clazz h res
          { r with
              traits := r.traits.filter (fun f => !f.handler.isWeak),
              hasWeakHandlers := false }
          hnode hmeta ?flags ?count ?mtch
        case flags =>
          refine ⟨?_, ?_, ?_, ?_⟩
          · intro hp
            obtain ⟨t, ht, htp⟩ := hflags.1 hp
            refine ⟨t, List.mem_filter.mpr ⟨ht, ?_⟩, htp⟩
            rw [isWeak_false_of_isPrimary htp]
            rfl
          · intro hp t ht
            exact hflags.2.1 hp t (List.mem_filter.mp ht).1
          · intro hw
            exact absurd hw (by simp)
          · intro _ t ht
            have hh := (List.mem_filter.mp ht).2
            cases hq : t.handler.isWeak
            · rfl
            · rw [hq] at hh; exact absurd hh (by simp)
        case count => exact le_trans (countPrimary_filter_le _ _) hcount
        case mtch => rw [hwf]
        rcases hspec with ⟨r', he, hc⟩ | ⟨r', he, hm⟩
        · exact Or.inr ⟨r', he, hc⟩
        · exact Or.inl ⟨some r', he, Or.inr ⟨r', rfl, hm⟩⟩
      · rw [if_neg hb1]
        by_cases hb2 : (h.isWeak && !r.hasWeakHandlers) = true
        · rw [if_pos hb2]
          exact Or.inl ⟨some r, rfl, Or.inr ⟨r, rfl, hnode, hmeta, hne, hflags, hcount⟩⟩
        · rw [if_neg hb2]
          have hmatch : h.isWeak = r.hasWeakHandlers := by
            cases hq : h.isWeak <;> cases hrw : r.hasWeakHandlers
            · rfl
            · exact absurd (by rw [hq, hrw]; rfl) hb1
            · exact absurd (by rw [hq, hrw]; rfl) hb2
            · rfl
          have hspec := scanStep2_spec clazz h res r hnode hmeta hflags hcount hmatch
          rcases hspec with ⟨r', he, hc⟩ | ⟨r', he, hm⟩
          · exact Or.inr ⟨r', he, hc⟩
          · exact Or.inl ⟨some r', he, Or.inr ⟨r', rfl, hm⟩⟩

theorem scanLoop_spec (clazz : ClassDeclaration) :
    ∀ (hs : List Handler) (record : Option ClassRecord),
      (record = none ∨ ∃ r, record = some r ∧ midGood clazz r) →
      (scanLoop clazz hs record = none ∨
       ∃ r', scanLoop clazz hs record = some r' ∧ (midGood clazz r' ∨ collided clazz r'))
  | [], record, hrec => by
    unfold scanLoop
    rcases hrec with hnone | ⟨r, hsome, hmid⟩
    · exact Or.inl hnone
    · exact Or.inr ⟨r, hsome, Or.inl hmid⟩
  | h :: hs, record, hrec => by
    rcases scanStep_spec clazz h record hrec with ⟨out, hstep, hout⟩ | ⟨r', hstep, hcol⟩
    · rw [scanLoop_cons clazz h hs record, hstep]
      exact scanLoop_spec clazz hs out hout
    · rw [scanLoop_cons clazz h hs record, hstep]
      exact Or.inr ⟨r', rfl, Or.inr hcol⟩

theorem scanClassForTraits_spec (st : CompilerState) (cfg : Bool) (handlers : List Handler)
    (clazz : ClassDeclaration) (st' : CompilerState) (r : ClassRecord)
    (hscan : scanClassForTraits st cfg handlers clazz = (st', some r)) :
    midGood clazz r ∨ collided clazz r := by
  unfold scanClassForTraits at hscan
  split at hscan
  · simp at hscan
  · rcases hloop : scanLoop clazz handlers none with _ | rec
    · rw [hloop] at hscan
      simp at hscan
    · rw [hloop] at hscan
      simp only [Prod.mk.injEq, Option.some.injEq] at hscan
      rcases scanLoop_spec clazz handlers none (Or.inl rfl) with hnone | ⟨r', hsome, hgood⟩
      · rw [hnone] at hloop
        exact absurd hloop (by simp)
      · rw [hsome] at hloop
        have hrr : r' = rec := by injection hloop
        subst hrr
        rw [hscan.2] at hgood
        exact hgood

end Ngtsc

namespace Ngtsc

theorem scanClassForTraits_loop (st : CompilerState) (cfg : Bool) (handlers : List Handler)
    (clazz : ClassDeclaration) (st' : CompilerState) (r : ClassRecord)
    (hscan : scanClassForTraits st cfg handlers clazz = (st', some r)) :
    scanLoop clazz handlers none = some r := by
  unfold scanClassForTraits at hscan
  split at hscan
  · simp at hscan
  · rcases hloop : scanLoop clazz handlers none with _ | rec
    · rw [hloop] at hscan
      simp at hscan
    · rw [hloop] at hscan
      simp only [Prod.mk.injEq, Option.some.injEq] at hscan
      rw [hscan.2]

theorem scanClassForTraits_state (st : CompilerState) (cfg : Bool) (handlers : List Handler)
    (clazz : ClassDeclaration) (st' : CompilerState) (r : ClassRecord)
    (hscan : scanClassForTraits st cfg handlers clazz = (st', some r)) :
    st' = { st with
              classes := alistSet st.classes clazz r,
              fileToClasses := addClassToFile st.fileToClasses clazz.file clazz } := by
  unfold scanClassForTraits at hscan
  split at hscan
  · simp at hscan
  · rcases hloop : scanLoop clazz handlers none with _ | rec
    · rw [hloop] at hscan
      simp at hscan
    · rw [hloop] at hscan
      simp only [Prod.mk.injEq, Option.some.injEq] at hscan
      rw [← hscan.1, hscan.2]

/-- Claim C1: for every class processed by the matching engine, the final
record holds at most one trait from a PRIMARY-precedence handler; and when a
second PRIMARY handler matches a class whose record already has a PRIMARY
trait, `metaDiagnostics` becomes exactly one "incompatible markers" diagnostic
anchored at the class, `traits` is cleared, and matching terminates at once
(the result does not depend on the remaining handlers). -/
theorem claim1_primary_collision :
    (∀ (st : CompilerState) (cfg : Bool) (handlers : List Handler)
       (clazz : ClassDeclaration) (st' : CompilerState) (r : ClassRecord),
       scanClassForTraits st cfg handlers clazz = (st', some r) →
       countPrimary r.traits ≤ 1 ∧
       (∀ ds, r.metaDiagnostics = some ds → ds = [collisionDiag clazz] ∧ r.traits = [])) ∧
    (∀ (clazz : ClassDeclaration) (h : Handler) (hs : List Handler) (r : ClassRecord),
       midGood clazz r → r.hasPrimaryHandler = true →
       h.precedence = HandlerPrecedence.PRIMARY → (∃ res, h.detect clazz = some res) →
       scanLoop clazz (h :: hs) (some r) =
         some { r with metaDiagnostics := some [collisionDiag clazz], traits := [] }) := by
  constructor
  · intro st cfg handlers clazz st' r hscan
    rcases scanClassForTraits_spec st cfg handlers clazz st' r hscan with hmid | hcol
    · obtain ⟨_, hmeta, _, _, hcount⟩ := hmid
      refine ⟨hcount, ?_⟩
      intro ds hds
      rw [hmeta] at hds
      exact absurd hds (by simp)
    · obtain ⟨_, hmeta, htr⟩ := hcol
      refine ⟨?_, ?_⟩
      · rw [htr]
        simp [countPrimary]
      · intro ds hds
        rw [hmeta] at hds
        injection hds with hds
        exact ⟨hds.symm, htr⟩
  · intro clazz h hs r hmid hP hp hdet
    obtain ⟨hnode, hmeta, hne, hflags, hcount⟩ := hmid
    obtain ⟨res, hdet⟩ := hdet
    have hPrim : h.isPrimary = true := isPrimary_iff_precedence.mpr hp
    have hwk : h.isWeak = false := isWeak_false_of_isPrimary hPrim
    have hrw : r.hasWeakHandlers = false := by
      obtain ⟨t, ht, htp⟩ := hflags.1 hP
      cases hq : r.hasWeakHandlers
      · rfl
      · have := hflags.2.2.1 hq t ht
        rw [isWeak_false_of_isPrimary htp] at this
        exact absurd this (by simp)
    have hcolc : ((Trait.pending h res).handler.isPrimary && r.hasPrimaryHandler) = true := by
      show (h.isPrimary && r.hasPrimaryHandler) = true
      rw [hPrim, hP]
      rfl
    have hstep : scanStep clazz h (some r) =
        (some { r with metaDiagnostics := some [collisionDiag clazz], traits := [] }, true) := by
      rw [scanStep_eq_some_some clazz h res r hdet,
          if_neg (by rw [hwk, hrw]; simp), if_neg (by rw [hwk]; simp)]
      unfold scanStep2
      rw [if_pos hcolc]
    rw [scanLoop_cons, hstep]

/-- Claim C9: for every record produced by matching whose `metaDiagnostics` is
null, `hasPrimaryHandler` holds iff some trait comes from a PRIMARY-precedence
handler, and `hasWeakHandlers` holds iff the (nonempty) trait list consists
entirely of WEAK-precedence traits. -/
theorem claim9_derived_flags (st : CompilerState) (cfg : Bool) (handlers : List Handler)
    (clazz : ClassDeclaration) (st' : CompilerState) (r : ClassRecord)
    (hscan : scanClassForTraits st cfg handlers clazz = (st', some r))
    (hmeta : r.metaDiagnostics = none) :
    (r.hasPrimaryHandler = true ↔
      ∃ t ∈ r.traits, t.handler.precedence = HandlerPrecedence.PRIMARY) ∧
    (r.hasWeakHandlers = true ↔
      (r.traits ≠ [] ∧ ∀ t ∈ r.traits, t.handler.precedence = HandlerPrecedence.WEAK)) := by
  rcases scanClassForTraits_spec st cfg handlers clazz st' r hscan with hmid | hcol
  · obtain ⟨_, _, hne, hflags, _⟩ := hmid
    constructor
    · constructor
      · intro hp
        obtain ⟨t, ht, htp⟩ := hflags.1 hp
        exact ⟨t, ht, isPrimary_iff_precedence.mp htp⟩
      · rintro ⟨t, ht, htp⟩
        cases hq : r.hasPrimaryHandler
        · have := hflags.2.1 hq t ht
          rw [isPrimary_iff_precedence.mpr htp] at this
          exact absurd this (by simp)
        · rfl
    · constructor
      · intro hw
        refine ⟨hne, ?_⟩
        intro t ht
        exact isWeak_iff_precedence.mp (hflags.2.2.1 hw t ht)
      · rintro ⟨hne2, hall⟩
        cases hq : r.hasWeakHandlers
        · obtain ⟨t, ht⟩ := List.exists_mem_of_ne_nil _ hne2
          have := hflags.2.2.2 hq t ht
          rw [isWeak_iff_precedence.mpr (hall t ht)] at this
          exact absurd this (by simp)
        · rfl
  · rw [hcol.2.1] at hmeta
    exact absurd hmeta (by simp)

end Ngtsc

namespace Ngtsc

theorem scanStep2_shape (clazz : ClassDeclaration) (t : Trait) (r : ClassRecord) :
    ∃ rr e, scanStep2 clazz t r = (some rr, e) := by
  unfold scanStep2
  split
  · exact ⟨_, _, rfl⟩
  · exact ⟨_, _, rfl⟩

theorem scanStep_some_shape (clazz : ClassDeclaration) (h : Handler) (r : ClassRecord)
    (out : Option ClassRecord) (e : Bool) (hstep : scanStep clazz h (some r) = (out, e)) :
    ∃ rr, out = some rr := by
  cases hdet : h.detect clazz with
  | none =>
    rw [scanStep_eq_none clazz h (some r) hdet] at hstep
    exact ⟨r, ((Prod.ext_iff.mp hstep).1).symm⟩
  | some res =>
    rw [scanStep_eq_some_some clazz h res r hdet] at hstep
    split at hstep
    · obtain ⟨rr, e', heq⟩ := scanStep2_shape clazz (Trait.pending h res)
        { r with
            traits := r.traits.filter (fun f => !f.handler.isWeak),
            hasWeakHandlers := false }
      rw [heq] at hstep
      exact ⟨rr, ((Prod.ext_iff.mp hstep).1).symm⟩
    · split at hstep
      · exact ⟨r, ((Prod.ext_iff.mp hstep).1).symm⟩
      · obtain ⟨rr, e', heq⟩ := scanStep2_shape clazz (Trait.pending h res) r
        rw [heq] at hstep
        exact ⟨rr, ((Prod.ext_iff.mp hstep).1).symm⟩

theorem scanStep2_hasWeak (clazz : ClassDeclaration) (t : Trait) (r : ClassRecord)
    (rr : ClassRecord) (hstep : scanStep2 clazz t r = (some rr, false)) :
    rr.hasWeakHandlers = r.hasWeakHandlers := by
  unfold scanStep2 at hstep
  split at hstep
  · simp at hstep
  · obtain ⟨h1, _⟩ := Prod.ext_iff.mp hstep
    injection h1 with h1
    rw [← h1]

/-- A step on a record whose WEAK flag is already false leaves the flag
false. -/
theorem scanStep_weakFalse_preserved (clazz : ClassDeclaration) (h : Handler)
    (r rr : ClassRecord) (hrw : r.hasWeakHandlers = false)
    (hstep : scanStep clazz h (some r) = (some rr, false)) :
    rr.hasWeakHandlers = false := by
  cases hdet : h.detect clazz with
  | none =>
    rw [scanStep_eq_none clazz h (some r) hdet] at hstep
    obtain ⟨h1, _⟩ := Prod.ext_iff.mp hstep
    injection h1 with h1
    rw [← h1, hrw]
  | some res =>
    rw [scanStep_eq_some_some clazz h res r hdet,
        if_neg (by rw [hrw]; simp)] at hstep
    by_cases hw : h.isWeak = true
    · rw [if_pos (by rw [hw, hrw]; rfl)] at hstep
      obtain ⟨h1, _⟩ := Prod.ext_iff.mp hstep
      injection h1 with h1
      rw [← h1, hrw]
    · rw [if_neg (by intro hc; exact hw ((Bool.and_eq_true _ _).mp hc).1)] at hstep
      rw [scanStep2_hasWeak clazz _ r rr hstep, hrw]

/-- A non-WEAK handler match always leaves the WEAK flag false. -/
theorem scanStep_nonweak_result (clazz : ClassDeclaration) (h : Handler) (res : Nat)
    (r rr : ClassRecord) (hnw : h.isWeak = false) (hdet : h.detect clazz = some res)
    (hstep : scanStep clazz h (some r) = (some rr, false)) :
    rr.hasWeakHandlers = false := by
  rw [scanStep_eq_some_some clazz h res r hdet] at hstep
  by_cases hrw : r.hasWeakHandlers = true
  · rw [if_pos (by rw [hnw, hrw]; rfl)] at hstep
    have := scanStep2_hasWeak clazz _ _ rr hstep
    rw [this]
  · have hrwf : r.hasWeakHandlers = false := by
      cases hq : r.hasWeakHandlers
      · rfl
      · exact absurd hq hrw
    rw [if_neg (by rw [hnw, hrwf]; simp), if_neg (by rw [hnw]; simp)] at hstep
    rw [scanStep2_hasWeak clazz _ r rr hstep, hrwf]

/-- Once the WEAK flag is false, no WEAK trait ever appears in the final
record of the scan. -/
theorem scanLoop_weakFalse (clazz : ClassDeclaration) :
    ∀ (hs : List Handler) (r : ClassRecord), midGood clazz r →
      r.hasWeakHandlers = false →
      ∀ r', scanLoop clazz hs (some r) = some r' →
        ∀ t ∈ r'.traits, t.handler.isWeak = false
  | [], r, hmid, hrw, r', hloop, t, ht => by
    unfold scanLoop at hloop
    injection hloop with hloop
    subst hloop
    exact hmid.2.2.2.1.2.2.2 hrw t ht
  | h :: hs, r, hmid, hrw, r', hloop, t, ht => by
    rcases scanStep_spec clazz h (some r) (Or.inr ⟨r, rfl, hmid⟩) with
      ⟨out, hstep, hout⟩ | ⟨r1, hstep, hcol⟩
    · obtain ⟨rr, hout_eq⟩ := scanStep_some_shape clazz h r out false hstep
      subst hout_eq
      rcases hout with hno | ⟨r'', heq, hmid''⟩
      · exact absurd hno (by simp)
      · injection heq with heq
        have hmid2 : midGood clazz rr := by
          rw [heq]
          exact hmid''
        have hrw2 := scanStep_weakFalse_preserved clazz h r rr hrw hstep
        rw [scanLoop_cons, hstep] at hloop
        exact scanLoop_weakFalse clazz hs rr hmid2 hrw2 r' hloop t ht
    · rw [scanLoop_cons, hstep] at hloop
      injection hloop with hh
      subst hh
      rw [hcol.2.2] at ht
      exact absurd ht (by simp)

/-- If any non-WEAK handler in the remaining registry detects the class, the
final record contains no WEAK trait. -/
theorem scanLoop_nonweak (clazz : ClassDeclaration) :
    ∀ (hs : List Handler) (record : Option ClassRecord),
      (record = none ∨ ∃ r, record = some r ∧ midGood clazz r) →
      (∃ h ∈ hs, h.isWeak = false ∧ ∃ res, h.detect clazz = some res) →
      ∀ r', scanLoop clazz hs record = some r' →
        ∀ t ∈ r'.traits, t.handler.isWeak = false
  | [], _, _, hex, _, _, _, _ => by
    obtain ⟨h, hmem, _⟩ := hex
    exact absurd hmem (by simp)
  | h :: hs, record, hrec, hex, r', hloop, t, ht => by
    obtain ⟨h0, hmem, hnw, res0, hdet0⟩ := hex
    rcases List.mem_cons.mp hmem with hhead | htail
    · subst hhead
      rcases hrec with hnone | ⟨r, hsome, hmid⟩
      · subst hnone
        rcases scanStep_spec clazz h0 none (Or.inl rfl) with
          ⟨out, hstep, hout⟩ | ⟨r1, hstep, _⟩
        · rw [scanStep_eq_some_none clazz h0 res0 hdet0] at hstep
          rcases hout with hno | ⟨r'', heq, hmid''⟩
          · rw [hno] at hstep
            exact absurd ((Prod.ext_iff.mp hstep).1) (by simp)
          · rw [heq] at hstep
            obtain ⟨h1, _⟩ := Prod.ext_iff.mp hstep
            injection h1 with h1
            have hrw'' : r''.hasWeakHandlers = false := by
              rw [← h1]
              exact hnw
            rw [scanLoop_cons, scanStep_eq_some_none clazz h0 res0 hdet0] at hloop
            have hloop2 : scanLoop clazz hs (some r'') = some r' := by
              rw [← h1]
              exact hloop
            exact scanLoop_weakFalse clazz hs r'' hmid'' hrw'' r' hloop2 t ht
        · rw [scanStep_eq_some_none clazz h0 res0 hdet0] at hstep
          exact absurd ((Prod.ext_iff.mp hstep).2) (by simp)
      · subst hsome
        rcases scanStep_spec clazz h0 (some r) (Or.inr ⟨r, rfl, hmid⟩) with
          ⟨out, hstep, hout⟩ | ⟨r1, hstep, hcol⟩
        · obtain ⟨rr, hout_eq⟩ := scanStep_some_shape clazz h0 r out false hstep
          subst hout_eq
          rcases hout with hno | ⟨r'', heq, hmid''⟩
          · exact absurd hno (by simp)
          · injection heq with heq
            have hmid2 : midGood clazz rr := by
              rw [heq]
              exact hmid''
            have hrw2 := scanStep_nonweak_result clazz h0 res0 r rr hnw hdet0 hstep
            rw [scanLoop_cons, hstep] at hloop
            exact scanLoop_weakFalse clazz hs rr hmid2 hrw2 r' hloop t ht
        · rw [scanLoop_cons, hstep] at hloop
          injection hloop with hh
          subst hh
          rw [hcol.2.2] at ht
          exact absurd ht (by simp)
    · rcases scanStep_spec clazz h record hrec with
        ⟨out, hstep, hout⟩ | ⟨r1, hstep, hcol⟩
      · rw [scanLoop_cons, hstep] at hloop
        exact scanLoop_nonweak clazz hs out hout ⟨h0, htail, hnw, res0, hdet0⟩ r' hloop t ht
      · rw [scanLoop_cons, hstep] at hloop
        injection hloop with hh
        subst hh
        rw [hcol.2.2] at ht
        exact absurd ht (by simp)

/-- Claim C3: a WEAK trait never survives when a non-WEAK handler also matches
the class — if a WEAK handler matched earlier, its trait is absent from the
final record; and a WEAK handler matching a record that already holds a
non-WEAK trait is dropped without being appended (the scan state is
unchanged). -/
theorem claim3_weak_precedence :
    (∀ (st : CompilerState) (cfg : Bool) (handlers : List Handler)
       (clazz : ClassDeclaration) (st' : CompilerState) (r : ClassRecord),
       scanClassForTraits st cfg handlers clazz = (st', some r) →
       (∃ h ∈ handlers, h.precedence ≠ HandlerPrecedence.WEAK ∧
          ∃ res, h.detect clazz = some res) →
       ∀ t ∈ r.traits, t.handler.precedence ≠ HandlerPrecedence.WEAK) ∧
    (∀ (clazz : ClassDeclaration) (h : Handler) (hs : List Handler) (r : ClassRecord),
       h.precedence = HandlerPrecedence.WEAK → r.hasWeakHandlers = false →
       scanLoop clazz (h :: hs) (some r) = scanLoop clazz hs (some r)) := by
  constructor
  · intro st cfg handlers clazz st' r hscan hex ht hmem
    obtain ⟨h0, hmem0, hnw0, res0, hdet0⟩ := hex
    have hloop := scanClassForTraits_loop st cfg handlers clazz st' r hscan
    have hwf : h0.isWeak = false := by
      cases hq : h0.isWeak
      · rfl
      · exact absurd (isWeak_iff_precedence.mp hq) hnw0
    have := scanLoop_nonweak clazz handlers none (Or.inl rfl)
      ⟨h0, hmem0, hwf, res0, hdet0⟩ r hloop ht hmem
    intro hc
    rw [isWeak_iff_precedence.mpr hc] at this
    exact absurd this (by simp)
  · intro clazz h hs r hwk hrw
    cases hdet : h.detect clazz with
    | none => rw [scanLoop_cons, scanStep_eq_none clazz h (some r) hdet]
    | some res =>
      have hw : h.isWeak = true := isWeak_iff_precedence.mpr hwk
      rw [scanLoop_cons, scanStep_eq_some_some clazz h res r hdet,
          if_neg (by rw [hw]; simp), if_pos (by rw [hw, hrw]; rfl)]

end Ngtsc


namespace Ngtsc

/-! ### Association-list lemmas -/

theorem alistGet?_set_self {α β : Type} [DecidableEq α] (m : List (α × β)) (k : α) (v : β) :
    alistGet? (alistSet m k v) k = some v := by
  induction m with
  | nil => simp [alistSet, alistGet?]
  | cons p rest ih =>
    obtain ⟨k', v'⟩ := p
    by_cases hk : k' = k
    · subst hk
      simp [alistSet, alistGet?]
    · simp [alistSet, alistGet?, hk, ih]

theorem alistGet?_set_ne {α β : Type} [DecidableEq α] (m : List (α × β)) (k k2 : α) (v : β)
    (hne : ¬k = k2) : alistGet? (alistSet m k v) k2 = alistGet? m k2 := by
  induction m with
  | nil => simp [alistSet, alistGet?, hne]
  | cons p rest ih =>
    obtain ⟨k', v'⟩ := p
    by_cases hk : k' = k
    · subst hk
      simp [alistSet, alistGet?, hne]
    · simp only [alistSet, if_neg hk, alistGet?]
      by_cases hk2 : k' = k2
      · rw [if_pos hk2, if_pos hk2]
      · rw [if_neg hk2, if_neg hk2, ih]

theorem addClassToFile_mem (idx : List (Nat × List ClassDeclaration)) (sf : Nat)
    (clazz : ClassDeclaration) :
    ∃ s, alistGet? (addClassToFile idx sf clazz) sf = some s ∧ clazz ∈ s := by
  cases hg : alistGet? idx sf with
  | none =>
    have hred : addClassToFile idx sf clazz = alistSet idx sf [clazz] := by
      unfold addClassToFile
      rw [hg]
    rw [hred]
    exact ⟨[clazz], alistGet?_set_self idx sf [clazz], by simp⟩
  | some s =>
    have hred : addClassToFile idx sf clazz =
        alistSet idx sf (if clazz ∈ s then s else s ++ [clazz]) := by
      unfold addClassToFile
      rw [hg]
    rw [hred]
    by_cases hc : clazz ∈ s
    · rw [if_pos hc]
      exact ⟨s, alistGet?_set_self idx sf s, hc⟩
    · rw [if_neg hc]
      exact ⟨s ++ [clazz], alistGet?_set_self idx sf (s ++ [clazz]), by simp⟩

/-! ### Key preservation of the analyze and resolve sweeps -/

theorem analyzeRecords_keys :
    ∀ cls : List (ClassDeclaration × ClassRecord),
      (analyzeRecords cls).1.map Prod.fst = cls.map Prod.fst
  | [] => rfl
  | (c, r) :: rest => by
    unfold analyzeRecords
    rcases han : analyzeRecord c r with ⟨r', err⟩
    cases err with
    | some m => simp
    | none => simp [analyzeRecords_keys rest]

theorem resolveRecords_cons (rmap : ReexportMap) (c : ClassDeclaration) (r : ClassRecord)
    (rest : List (ClassDeclaration × ClassRecord)) :
    resolveRecords rmap ((c, r) :: rest) =
      (match resolveTraits c rmap r.traits with
       | Except.error m => Except.error m
       | Except.ok (ts, rmap') =>
         match resolveRecords rmap' rest with
         | Except.error m => Except.error m
         | Except.ok (rest', rmap'') =>
           Except.ok ((c, { r with traits := ts }) :: rest', rmap'')) := rfl

theorem resolveRecords_keys :
    ∀ (cls : List (ClassDeclaration × ClassRecord)) (rmap : ReexportMap)
      (out : List (ClassDeclaration × ClassRecord) × ReexportMap),
      resolveRecords rmap cls = Except.ok out → out.1.map Prod.fst = cls.map Prod.fst
  | [], rmap, out, h => by
    unfold resolveRecords at h
    injection h with h
    rw [← h]
  | (c, r) :: rest, rmap, out, h => by
    rw [resolveRecords_cons] at h
    rcases hrt : resolveTraits c rmap r.traits with m | ⟨ts, rmap'⟩
    · rw [hrt] at h
      replace h :
        (Except.error m :
          Except String (List (ClassDeclaration × ClassRecord) × ReexportMap)) =
          Except.ok out := h
      simp at h
    · rw [hrt] at h
      replace h :
        (match resolveRecords rmap' rest with
         | Except.error m => Except.error m
         | Except.ok (rest', rmap'') =>
           Except.ok ((c, { r with traits := ts }) :: rest', rmap'')) =
          Except.ok out := h
      rcases hrr : resolveRecords rmap' rest with m | ⟨rest', rmap''⟩
      · rw [hrr] at h
        replace h :
          (Except.error m :
            Except String (List (ClassDeclaration × ClassRecord) × ReexportMap)) =
            Except.ok out := h
        simp at h
      · rw [hrr] at h
        replace h :
          Except.ok ((c, { r with traits := ts }) :: rest', rmap'') = Except.ok out := h
        injection h with h
        rw [← h]
        simp [resolveRecords_keys rest rmap' (rest', rmap'') hrr]

theorem resolve_preserves (st : CompilerState) (scopes : List CompilationScope)
    (g : DepGraph) (st' : CompilerState) (g' : DepGraph)
    (h : TraitCompiler.resolve st scopes g = Except.ok (st', g')) :
    st'.fileToClasses = st.fileToClasses ∧
    st'.classes.map Prod.fst = st.classes.map Prod.fst := by
  unfold TraitCompiler.resolve at h
  rcases hrr : resolveRecords st.reexportMap st.classes with m | ⟨cls, rmap⟩
  · rw [hrr] at h
    replace h :
      (Except.error m : Except String (CompilerState × DepGraph)) =
        Except.ok (st', g') := h
    simp at h
  · rw [hrr] at h
    replace h :
      (Except.ok
        ({ st with classes := cls, reexportMap := rmap },
         recordNgModuleScopeDependencies scopes g) :
        Except String (CompilerState × DepGraph)) = Except.ok (st', g') := h
    injection h with h
    rw [Prod.mk.injEq] at h
    obtain ⟨h1, _⟩ := h
    rw [← h1]
    exact ⟨rfl, resolveRecords_keys st.classes st.reexportMap (cls, rmap) hrr⟩

/-- Claim C10: once matching inserts a class into the declaration → record map
and the file → declarations index, it stays there — in particular after a
fatal PRIMARY collision — and the later analyze and resolve passes never
remove entries from either structure. -/
theorem claim10_maps_persist :
    (∀ (st : CompilerState) (cfg : Bool) (handlers : List Handler)
       (clazz : ClassDeclaration) (st' : CompilerState) (r : ClassRecord),
       scanClassForTraits st cfg handlers clazz = (st', some r) →
       alistGet? st'.classes clazz = some r ∧
       ∃ s, alistGet? st'.fileToClasses clazz.file = some s ∧ clazz ∈ s) ∧
    (∀ st : CompilerState,
       (analyzePass st).1.fileToClasses = st.fileToClasses ∧
       (analyzePass st).1.classes.map Prod.fst = st.classes.map Prod.fst) ∧
    (∀ (st : CompilerState) (scopes : List CompilationScope) (g : DepGraph)
       (st' : CompilerState) (g' : DepGraph),
       TraitCompiler.resolve st scopes g = Except.ok (st', g') →
       st'.fileToClasses = st.fileToClasses ∧
       st'.classes.map Prod.fst = st.classes.map Prod.fst) := by
  refine ⟨?_, ?_, ?_⟩
  · intro st cfg handlers clazz st' r hscan
    rw [scanClassForTraits_state st cfg handlers clazz st' r hscan]
    exact ⟨alistGet?_set_self st.classes clazz r,
           addClassToFile_mem st.fileToClasses clazz.file clazz⟩
  · intro st
    exact ⟨rfl, analyzeRecords_keys st.classes⟩
  · intro st scopes g st' g' h
    exact resolve_preserves st scopes g st' g' h

end Ngtsc

namespace Ngtsc

/-! ### Resolution-phase lemmas -/

/-- A trait state that resolution leaves alone or produces. -/
def terminalState (s : TraitState) : Prop :=
  s = TraitState.SKIPPED ∨ s = TraitState.ERRORED ∨ s = TraitState.RESOLVED

theorem resolveTrait_skipped (clazz : ClassDeclaration) (t : Trait)
    (hst : t.state = TraitState.SKIPPED) : resolveTrait clazz t = Except.ok (t, none) := by
  unfold resolveTrait
  rw [hst]

theorem resolveTrait_errored (clazz : ClassDeclaration) (t : Trait)
    (hst : t.state = TraitState.ERRORED) : resolveTrait clazz t = Except.ok (t, none) := by
  unfold resolveTrait
  rw [hst]

theorem resolveTrait_pending (clazz : ClassDeclaration) (t : Trait)
    (hst : t.state = TraitState.PENDING) :
    resolveTrait clazz t =
      Except.error
        ("Resolving a trait that has not been analyzed: " ++ clazz.name ++ " / " ++
          t.handler.name) := by
  unfold resolveTrait
  rw [hst]

theorem resolveTrait_resolved (clazz : ClassDeclaration) (t : Trait)
    (hst : t.state = TraitState.RESOLVED) :
    resolveTrait clazz t = Except.error "Resolving an already resolved trait" := by
  unfold resolveTrait
  rw [hst]

theorem resolveTrait_ok_terminal (clazz : ClassDeclaration) (t t' : Trait)
    (ws : Option (List Reexport)) (h : resolveTrait clazz t = Except.ok (t', ws)) :
    terminalState t'.state := by
  cases hst : t.state with
  | SKIPPED =>
    rw [resolveTrait_skipped clazz t hst] at h
    injection h with h
    rw [Prod.mk.injEq] at h
    rw [← h.1]
    exact Or.inl hst
  | ERRORED =>
    rw [resolveTrait_errored clazz t hst] at h
    injection h with h
    rw [Prod.mk.injEq] at h
    rw [← h.1]
    exact Or.inr (Or.inl hst)
  | PENDING =>
    rw [resolveTrait_pending clazz t hst] at h
    exact absurd h (by simp)
  | RESOLVED =>
    rw [resolveTrait_resolved clazz t hst] at h
    exact absurd h (by simp)
  | ANALYZED =>
    unfold resolveTrait at h
    rw [hst] at h
    cases hre : t.handler.resolve with
    | none =>
      rw [hre] at h
      replace h : Except.ok (t.toResolved none, (none : Option (List Reexport))) =
          Except.ok (t', ws) := h
      injection h with h
      rw [Prod.mk.injEq] at h
      rw [← h.1]
      exact Or.inr (Or.inr rfl)
    | some resolveFn =>
      rw [hre] at h
      replace h :
          (match resolveFn clazz t.analysis with
           | ThrowOr.throwFatal d => Except.ok (t.toErrored [d], none)
           | ThrowOr.throwOther m => Except.error m
           | ThrowOr.ret result =>
             Except.ok
               ((match result.diagnostics with
                 | some ds => t.toErrored ds
                 | none =>
                   match result.data with
                   | some d => t.toResolved (some d)
                   | none => t.toResolved none),
                result.reexports)) = Except.ok (t', ws) := h
      cases hcall : resolveFn clazz t.analysis with
      | throwFatal d =>
        rw [hcall] at h
        replace h : Except.ok (t.toErrored [d], (none : Option (List Reexport))) =
            Except.ok (t', ws) := h
        injection h with h
        rw [Prod.mk.injEq] at h
        rw [← h.1]
        exact Or.inr (Or.inl rfl)
      | throwOther m =>
        rw [hcall] at h
        replace h : (Except.error m : Except String (Trait × Option (List Reexport))) =
            Except.ok (t', ws) := h
        exact absurd h (by simp)
      | ret result =>
        rw [hcall] at h
        replace h : Except.ok
            ((match result.diagnostics with
              | some ds => t.toErrored ds
              | none =>
                match result.data with
                | some d => t.toResolved (some d)
                | none => t.toResolved none),
             result.reexports) = Except.ok (t', ws) := h
        injection h with h
        rw [Prod.mk.injEq] at h
        rw [← h.1]
        cases result.diagnostics with
        | some ds => exact Or.inr (Or.inl rfl)
        | none =>
          cases result.data with
          | some d => exact Or.inr (Or.inr rfl)
          | none => exact Or.inr (Or.inr rfl)

theorem resolveTraits_cons (clazz : ClassDeclaration) (rmap : ReexportMap) (t : Trait)
    (ts : List Trait) :
    resolveTraits clazz rmap (t :: ts) =
      (match resolveTrait clazz t with
       | Except.error m => Except.error m
       | Except.ok (t', none) =>
         match resolveTraits clazz rmap ts with
         | Except.error m => Except.error m
         | Except.ok (ts', rmap'') => Except.ok (t' :: ts', rmap'')
       | Except.ok (t', some ws) =>
         match resolveTraits clazz (mergeReexports rmap clazz.file ws) ts with
         | Except.error m => Except.error m
         | Except.ok (ts', rmap'') => Except.ok (t' :: ts', rmap'')) := rfl

theorem resolveTraits_ok_terminal (clazz : ClassDeclaration) :
    ∀ (ts : List Trait) (rmap : ReexportMap) (out : List Trait × ReexportMap),
      resolveTraits clazz rmap ts = Except.ok out →
      ∀ t' ∈ out.1, terminalState t'.state
  | [], rmap, out, h => by
    unfold resolveTraits at h
    injection h with h
    rw [← h]
    intro t' ht'
    exact absurd ht' (by simp)
  | t :: ts, rmap, out, h => by
    rw [resolveTraits_cons] at h
    rcases hrt : resolveTrait clazz t with m | ⟨t', ws?⟩
    · rw [hrt] at h
      replace h : (Except.error m : Except String (List Trait × ReexportMap)) =
          Except.ok out := h
      exact absurd h (by simp)
    · rw [hrt] at h
      cases ws? with
      | none =>
        replace h :
            (match resolveTraits clazz rmap ts with
             | Except.error m => Except.error m
             | Except.ok (ts', rmap'') => Except.ok (t' :: ts', rmap'')) =
              Except.ok out := h
        rcases hrts : resolveTraits clazz rmap ts with m | ⟨ts', rmap''⟩
        · rw [hrts] at h
          replace h : (Except.error m : Except String (List Trait × ReexportMap)) =
              Except.ok out := h
          exact absurd h (by simp)
        · rw [hrts] at h
          replace h : Except.ok (t' :: ts', rmap'') = Except.ok out := h
          injection h with h
          rw [← h]
          intro u hu
          rcases List.mem_cons.mp hu with rfl | hu
          · exact resolveTrait_ok_terminal clazz t u none hrt
          · exact resolveTraits_ok_terminal clazz ts rmap (ts', rmap'') hrts u hu
      | some ws =>
        replace h :
            (match resolveTraits clazz (mergeReexports rmap clazz.file ws) ts with
             | Except.error m => Except.error m
             | Except.ok (ts', rmap'') => Except.ok (t' :: ts', rmap'')) =
              Except.ok out := h
        rcases hrts : resolveTraits clazz (mergeReexports rmap clazz.file ws) ts with
          m | ⟨ts', rmap''⟩
        · rw [hrts] at h
          replace h : (Except.error m : Except String (List Trait × ReexportMap)) =
              Except.ok out := h
          exact absurd h (by simp)
        · rw [hrts] at h
          replace h : Except.ok (t' :: ts', rmap'') = Except.ok out := h
          injection h with h
          rw [← h]
          intro u hu
          rcases List.mem_cons.mp hu with rfl | hu
          · exact resolveTrait_ok_terminal clazz t u (some ws) hrt
          · exact resolveTraits_ok_terminal clazz ts _ (ts', rmap'') hrts u hu

theorem resolveRecords_ok_terminal :
    ∀ (cls : List (ClassDeclaration × ClassRecord)) (rmap : ReexportMap)
      (out : List (ClassDeclaration × ClassRecord) × ReexportMap),
      resolveRecords rmap cls = Except.ok out →
      ∀ p ∈ out.1, ∀ t ∈ p.2.traits, terminalState t.state
  | [], rmap, out, h => by
    unfold resolveRecords at h
    injection h with h
    rw [← h]
    intro p hp
    exact absurd hp (by simp)
  | (c, r) :: rest, rmap, out, h => by
    rw [resolveRecords_cons] at h
    rcases hrt : resolveTraits c rmap r.traits with m | ⟨ts, rmap'⟩
    · rw [hrt] at h
      replace h :
        (Except.error m :
          Except String (List (ClassDeclaration × ClassRecord) × ReexportMap)) =
          Except.ok out := h
      exact absurd h (by simp)
    · rw [hrt] at h
      replace h :
        (match resolveRecords rmap' rest with
         | Except.error m => Except.error m
         | Except.ok (rest', rmap'') =>
           Except.ok ((c, { r with traits := ts }) :: rest', rmap'')) =
          Except.ok out := h
      rcases hrr : resolveRecords rmap' rest with m | ⟨rest', rmap''⟩
      · rw [hrr] at h
        replace h :
          (Except.error m :
            Except String (List (ClassDeclaration × ClassRecord) × ReexportMap)) =
            Except.ok out := h
        exact absurd h (by simp)
      · rw [hrr] at h
        replace h :
          Except.ok ((c, { r with traits := ts }) :: rest', rmap'') = Except.ok out := h
        injection h with h
        rw [← h]
        intro p hp
        rcases List.mem_cons.mp hp with rfl | hp
        · intro t ht
          exact resolveTraits_ok_terminal c r.traits rmap (ts, rmap') hrt t ht
        · exact resolveRecords_ok_terminal rest rmap' (rest', rmap'') hrr p hp

end Ngtsc

namespace Ngtsc

theorem resolveTraits_all_skiperr (clazz : ClassDeclaration) :
    ∀ (ts : List Trait) (rmap : ReexportMap),
      (∀ t ∈ ts, t.state = TraitState.SKIPPED ∨ t.state = TraitState.ERRORED) →
      resolveTraits clazz rmap ts = Except.ok (ts, rmap)
  | [], rmap, _ => rfl
  | t :: ts, rmap, hall => by
    rw [resolveTraits_cons]
    have hrest := resolveTraits_all_skiperr clazz ts rmap
      (fun u hu => hall u (List.mem_cons_of_mem t hu))
    rcases hall t (List.mem_cons_self t ts) with hst | hst
    · rw [resolveTrait_skipped clazz t hst, hrest]
    · rw [resolveTrait_errored clazz t hst, hrest]

theorem resolveTraits_error_of_resolved (clazz : ClassDeclaration) :
    ∀ (ts : List Trait) (rmap : ReexportMap),
      (∀ t ∈ ts, terminalState t.state) →
      (∃ t ∈ ts, t.state = TraitState.RESOLVED) →
      resolveTraits clazz rmap ts = Except.error "Resolving an already resolved trait"
  | [], _, _, hex => by
    obtain ⟨t, ht, _⟩ := hex
    exact absurd ht (by simp)
  | t :: ts, rmap, hall, hex => by
    rw [resolveTraits_cons]
    rcases hall t (List.mem_cons_self t ts) with hst | hst | hst
    · have hex2 : ∃ u ∈ ts, u.state = TraitState.RESOLVED := by
        obtain ⟨u, hu, hures⟩ := hex
        rcases List.mem_cons.mp hu with rfl | hu
        · rw [hst] at hures
          exact absurd hures (by simp)
        · exact ⟨u, hu, hures⟩
      rw [resolveTrait_skipped clazz t hst,
          resolveTraits_error_of_resolved clazz ts rmap
            (fun u hu => hall u (List.mem_cons_of_mem t hu)) hex2]
    · have hex2 : ∃ u ∈ ts, u.state = TraitState.RESOLVED := by
        obtain ⟨u, hu, hures⟩ := hex
        rcases List.mem_cons.mp hu with rfl | hu
        · rw [hst] at hures
          exact absurd hures (by simp)
        · exact ⟨u, hu, hures⟩
      rw [resolveTrait_errored clazz t hst,
          resolveTraits_error_of_resolved clazz ts rmap
            (fun u hu => hall u (List.mem_cons_of_mem t hu)) hex2]
    · rw [resolveTrait_resolved clazz t hst]

theorem resolveRecords_error_of_resolved :
    ∀ (cls : List (ClassDeclaration × ClassRecord)) (rmap : ReexportMap),
      (∀ p ∈ cls, ∀ t ∈ p.2.traits, terminalState t.state) →
      (∃ p ∈ cls, ∃ t ∈ p.2.traits, t.state = TraitState.RESOLVED) →
      resolveRecords rmap cls = Except.error "Resolving an already resolved trait"
  | [], _, _, hex => by
    obtain ⟨p, hp, _⟩ := hex
    exact absurd hp (by simp)
  | (c, r) :: rest, rmap, hall, hex => by
    rw [resolveRecords_cons]
    by_cases hres : ∃ t ∈ r.traits, t.state = TraitState.RESOLVED
    · rw [resolveTraits_error_of_resolved c r.traits rmap
          (hall (c, r) (List.mem_cons_self _ _)) hres]
    · have hskip : ∀ t ∈ r.traits,
          t.state = TraitState.SKIPPED ∨ t.state = TraitState.ERRORED := by
        intro t ht
        rcases hall (c, r) (List.mem_cons_self _ _) t ht with hst | hst | hst
        · exact Or.inl hst
        · exact Or.inr hst
        · exact absurd ⟨t, ht, hst⟩ hres
      have hex2 : ∃ p ∈ rest, ∃ t ∈ p.2.traits, t.state = TraitState.RESOLVED := by
        obtain ⟨p, hp, t, ht, hres2⟩ := hex
        rcases List.mem_cons.mp hp with rfl | hp
        · exact absurd ⟨t, ht, hres2⟩ hres
        · exact ⟨p, hp, t, ht, hres2⟩
      rw [resolveTraits_all_skiperr c r.traits rmap hskip]
      show (match resolveRecords rmap rest with
            | Except.error m => Except.error m
            | Except.ok (rest', rmap'') =>
              Except.ok ((c, { r with traits := r.traits }) :: rest', rmap'')) =
          Except.error "Resolving an already resolved trait"
      rw [resolveRecords_error_of_resolved rest rmap
            (fun p hp => hall p (List.mem_cons_of_mem _ hp)) hex2]

/-- Claim C2: resolving a trait still PENDING, or a trait already RESOLVED,
throws an internal error (an uncaught exception, not a collected diagnostic);
in particular, calling the global `resolve()` a second time after a first call
that left at least one trait RESOLVED throws the "already resolved" error. -/
theorem claim2_resolve_internal_errors :
    (∀ (clazz : ClassDeclaration) (t : Trait), t.state = TraitState.PENDING →
       resolveTrait clazz t =
         Except.error
           ("Resolving a trait that has not been analyzed: " ++ clazz.name ++ " / " ++
             t.handler.name)) ∧
    (∀ (clazz : ClassDeclaration) (t : Trait), t.state = TraitState.RESOLVED →
       resolveTrait clazz t = Except.error "Resolving an already resolved trait") ∧
    (∀ (st : CompilerState) (scopes : List CompilationScope) (g : DepGraph)
       (st' : CompilerState) (g' : DepGraph) (scopes2 : List CompilationScope)
       (g2 : DepGraph),
       TraitCompiler.resolve st scopes g = Except.ok (st', g') →
       (∃ p ∈ st'.classes, ∃ t ∈ p.2.traits, t.state = TraitState.RESOLVED) →
       TraitCompiler.resolve st' scopes2 g2 =
         Except.error "Resolving an already resolved trait") := by
  refine ⟨resolveTrait_pending, resolveTrait_resolved, ?_⟩
  intro st scopes g st' g' scopes2 g2 hfirst hex
  have hterm : ∀ p ∈ st'.classes, ∀ t ∈ p.2.traits, terminalState t.state := by
    unfold TraitCompiler.resolve at hfirst
    rcases hrr : resolveRecords st.reexportMap st.classes with m | ⟨cls, rmap⟩
    · rw [hrr] at hfirst
      replace hfirst :
        (Except.error m : Except String (CompilerState × DepGraph)) =
          Except.ok (st', g') := hfirst
      exact absurd hfirst (by simp)
    · rw [hrr] at hfirst
      replace hfirst :
        (Except.ok
          ({ st with classes := cls, reexportMap := rmap },
           recordNgModuleScopeDependencies scopes g) :
          Except String (CompilerState × DepGraph)) = Except.ok (st', g') := hfirst
      injection hfirst with hfirst
      rw [Prod.mk.injEq] at hfirst
      obtain ⟨h1, _⟩ := hfirst
      rw [← h1]
      exact resolveRecords_ok_terminal st.classes st.reexportMap (cls, rmap) hrr
  unfold TraitCompiler.resolve
  rw [resolveRecords_error_of_resolved st'.classes st'.reexportMap hterm hex]

end Ngtsc

namespace Ngtsc

/-! ### Analysis-phase lemmas -/

theorem analyzeTraits_cons (clazz : ClassDeclaration) (t : Trait) (ts : List Trait) :
    analyzeTraits clazz (t :: ts) =
      (match analyzeTrait clazz t with
       | Except.error m => (t :: ts, some m)
       | Except.ok t' =>
         (t' :: (analyzeTraits clazz ts).1, (analyzeTraits clazz ts).2)) := rfl

theorem analyzeRecords_cons (c : ClassDeclaration) (r : ClassRecord)
    (rest : List (ClassDeclaration × ClassRecord)) :
    analyzeRecords ((c, r) :: rest) =
      (match analyzeRecord c r with
       | (r', some m) => ((c, r') :: rest, some m)
       | (r', none) =>
         ((c, r') :: (analyzeRecords rest).1, (analyzeRecords rest).2)) := rfl

theorem analyzeTraits_append (clazz : ClassDeclaration) :
    ∀ (ts1 : List Trait) (t : Trait) (ts2 : List Trait) (m : String),
      (analyzeTraits clazz ts1).2 = none →
      analyzeTrait clazz t = Except.error m →
      analyzeTraits clazz (ts1 ++ t :: ts2) =
        ((analyzeTraits clazz ts1).1 ++ t :: ts2, some m)
  | [], t, ts2, m, _, he => by
    rw [List.nil_append, analyzeTraits_cons, he]
    simp [analyzeTraits]
  | u :: us, t, ts2, m, hp, he => by
    rcases hau : analyzeTrait clazz u with m' | u'
    · rw [analyzeTraits_cons, hau] at hp
      replace hp : (some m' : Option String) = none := hp
      exact absurd hp (by simp)
    · rw [analyzeTraits_cons clazz u us, hau] at hp
      replace hp : (analyzeTraits clazz us).2 = none := hp
      rw [List.cons_append, analyzeTraits_cons clazz u (us ++ t :: ts2), hau,
          analyzeTraits_append clazz us t ts2 m hp he, analyzeTraits_cons clazz u us, hau]
      simp

theorem analyzeRecords_append :
    ∀ (rs1 : List (ClassDeclaration × ClassRecord)) (c : ClassDeclaration)
      (r r' : ClassRecord) (rs2 : List (ClassDeclaration × ClassRecord)) (m : String),
      (analyzeRecords rs1).2 = none →
      analyzeRecord c r = (r', some m) →
      analyzeRecords (rs1 ++ (c, r) :: rs2) =
        ((analyzeRecords rs1).1 ++ (c, r') :: rs2, some m)
  | [], c, r, r', rs2, m, _, har => by
    rw [List.nil_append, analyzeRecords_cons, har]
    simp [analyzeRecords]
  | (c0, r0) :: rs, c, r, r', rs2, m, hp, har => by
    rcases har0 : analyzeRecord c0 r0 with ⟨r0', err0⟩
    cases err0 with
    | some m0 =>
      rw [analyzeRecords_cons, har0] at hp
      replace hp : (some m0 : Option String) = none := hp
      exact absurd hp (by simp)
    | none =>
      rw [analyzeRecords_cons c0 r0 rs, har0] at hp
      replace hp : (analyzeRecords rs).2 = none := hp
      rw [List.cons_append, analyzeRecords_cons c0 r0 (rs ++ (c, r) :: rs2), har0,
          analyzeRecords_append rs c r r' rs2 m hp har, analyzeRecords_cons c0 r0 rs, har0]
      simp

/-- Claim C4: during analysis, a `FatalDiagnosticError` thrown by the handler
is caught and turns the trait ERRORED with that diagnostic while processing
continues with the next trait; any other exception propagates uncaught,
aborting the sweep; and a failure on one trait leaves already-processed
sibling traits, the failing trait itself, later traits, and other class
records exactly as they were. -/
theorem claim4_analyze_error_handling :
    (∀ (clazz : ClassDeclaration) (t : Trait) (d : Diagnostic),
       t.state = TraitState.PENDING →
       t.handler.analyze clazz t.detected = ThrowOr.throwFatal d →
       analyzeTrait clazz t = Except.ok (t.toErrored [d])) ∧
    (∀ (clazz : ClassDeclaration) (t : Trait) (m : String),
       t.state = TraitState.PENDING →
       t.handler.analyze clazz t.detected = ThrowOr.throwOther m →
       analyzeTrait clazz t = Except.error m) ∧
    (∀ (clazz : ClassDeclaration) (t : Trait) (ts : List Trait) (t' : Trait),
       analyzeTrait clazz t = Except.ok t' →
       analyzeTraits clazz (t :: ts) =
         (t' :: (analyzeTraits clazz ts).1, (analyzeTraits clazz ts).2)) ∧
    (∀ (clazz : ClassDeclaration) (ts1 : List Trait) (t : Trait) (ts2 : List Trait)
       (m : String),
       (analyzeTraits clazz ts1).2 = none →
       analyzeTrait clazz t = Except.error m →
       analyzeTraits clazz (ts1 ++ t :: ts2) =
         ((analyzeTraits clazz ts1).1 ++ t :: ts2, some m)) ∧
    (∀ (rs1 : List (ClassDeclaration × ClassRecord)) (c : ClassDeclaration)
       (r r' : ClassRecord) (rs2 : List (ClassDeclaration × ClassRecord)) (m : String),
       (analyzeRecords rs1).2 = none →
       analyzeRecord c r = (r', some m) →
       analyzeRecords (rs1 ++ (c, r) :: rs2) =
         ((analyzeRecords rs1).1 ++ (c, r') :: rs2, some m)) := by
  refine ⟨?_, ?_, ?_, analyzeTraits_append, analyzeRecords_append⟩
  · intro clazz t d hst hana
    unfold analyzeTrait
    rw [if_neg (by rw [hst]; simp), hana]
  · intro clazz t m hst hana
    unfold analyzeTrait
    rw [if_neg (by rw [hst]; simp), hana]
  · intro clazz t ts t' hok
    rw [analyzeTraits_cons, hok]

end Ngtsc

namespace Ngtsc

/-! ### Compile-phase lemmas -/

theorem dedupPush_nodup (res : List CompileResult) (r : CompileResult)
    (h : (res.map CompileResult.name).Nodup) :
    ((dedupPush res r).map CompileResult.name).Nodup := by
  unfold dedupPush
  split
  · exact h
  · rename_i hany
    rw [List.map_append]
    refine List.Nodup.append h (by simp) ?_
    intro a ha hb
    simp only [List.map_cons, List.map_nil, List.mem_singleton] at hb
    subst hb
    obtain ⟨x, hx, hxa⟩ := List.mem_map.mp ha
    have hbeq : (x.name == r.name) = true := by
      rw [hxa]
      exact beq_self_eq_true r.name
    exact hany (List.any_eq_true.mpr ⟨x, hx, hbeq⟩)

theorem foldl_dedupPush_nodup (rs : List CompileResult) :
    ∀ res : List CompileResult, (res.map CompileResult.name).Nodup →
      ((rs.foldl dedupPush res).map CompileResult.name).Nodup := by
  induction rs with
  | nil =>
    intro res h
    exact h
  | cons r rs ih =>
    intro res h
    rw [List.foldl_cons]
    exact ih (dedupPush res r) (dedupPush_nodup res r h)

theorem compileTraits_nodup (clazz : ClassDeclaration) (pool : Nat) :
    ∀ (ts : List Trait) (res : List CompileResult),
      (res.map CompileResult.name).Nodup →
      ((compileTraits clazz pool ts res).map CompileResult.name).Nodup
  | [], res, h => h
  | t :: ts, res, h => by
    unfold compileTraits
    split
    · exact compileTraits_nodup clazz pool ts res h
    · rcases hco : t.handler.compile clazz t.analysis t.resolution pool with r | rs
      · exact compileTraits_nodup clazz pool ts (dedupPush res r) (dedupPush_nodup res r h)
      · exact compileTraits_nodup clazz pool ts (rs.foldl dedupPush res)
          (foldl_dedupPush_nodup rs res h)

/-- Claim C5: the list returned by `compile` never contains two results with
the same name — each result is appended only when no earlier trait already
produced a result with that name. -/
theorem claim5_compile_result_names_nodup (st : CompilerState) (dts : DtsTransforms)
    (d : InputDecl) (pool : Nat) (res : List CompileResult) (dts' : DtsTransforms)
    (h : TraitCompiler.compile st dts d pool = (some res, dts')) :
    (res.map CompileResult.name).Nodup := by
  unfold TraitCompiler.compile at h
  split at h
  · simp at h
  · rcases hg : alistGet? st.classes d.original with _ | record
    · rw [hg] at h
      replace h : ((none : Option (List CompileResult)), dts) = (some res, dts') := h
      simp at h
    · rw [hg] at h
      replace h :
        ((if (compileTraits d.clazz pool record.traits []).length > 0
          then some (compileTraits d.clazz pool record.traits []) else none),
         dts ++ [(d.original, compileTraits d.clazz pool record.traits [])]) =
          (some res, dts') := h
      rw [Prod.mk.injEq] at h
      obtain ⟨h1, _⟩ := h
      split at h1
      · injection h1 with h1
        rw [← h1]
        exact compileTraits_nodup d.clazz pool record.traits [] (by simp)
      · simp at h1

/-- Claim C6: `compile` returns null when the original declaration has no
record; when a record exists it always registers the produced field set
against the declaration-file transform keyed by the original declaration, and
returns null exactly when the deduplicated result set is empty. -/
theorem claim6_compile_null_and_registration (st : CompilerState) (dts : DtsTransforms)
    (d : InputDecl) (pool : Nat)
    (hc : d.clazzIsNamedClass = true) (ho : d.originalIsNamedClass = true) :
    (alistGet? st.classes d.original = none →
       TraitCompiler.compile st dts d pool = (none, dts)) ∧
    (∀ record, alistGet? st.classes d.original = some record →
       (TraitCompiler.compile st dts d pool).2 =
         dts ++ [(d.original, compileTraits d.clazz pool record.traits [])] ∧
       (compileTraits d.clazz pool record.traits [] = [] →
          (TraitCompiler.compile st dts d pool).1 = none) ∧
       (compileTraits d.clazz pool record.traits [] ≠ [] →
          (TraitCompiler.compile st dts d pool).1 =
            some (compileTraits d.clazz pool record.traits []))) := by
  have hguard : (!d.clazzIsNamedClass || !d.originalIsNamedClass) = false := by
    rw [hc, ho]
    rfl
  constructor
  · intro hnone
    unfold TraitCompiler.compile
    rw [if_neg (by rw [hguard]; simp), hnone]
  · intro record hrec
    unfold TraitCompiler.compile
    rw [if_neg (by rw [hguard]; simp), hrec]
    refine ⟨rfl, ?_, ?_⟩
    · intro hempty
      show (if (compileTraits d.clazz pool record.traits []).length > 0
            then some (compileTraits d.clazz pool record.traits []) else none) = none
      rw [if_neg (by rw [hempty]; simp)]
    · intro hnonempty
      show (if (compileTraits d.clazz pool record.traits []).length > 0
            then some (compileTraits d.clazz pool record.traits []) else none) =
          some (compileTraits d.clazz pool record.traits [])
      rw [if_pos (List.length_pos.mpr hnonempty)]

end Ngtsc

namespace Ngtsc

/-! ### Re-export table lemmas -/

theorem scan_preserves_reexports (st : CompilerState) (cfg : Bool)
    (handlers : List Handler) (clazz : ClassDeclaration) :
    ((scanClassForTraits st cfg handlers clazz).1).reexportMap = st.reexportMap := by
  unfold scanClassForTraits
  split
  · rfl
  · cases hloop : scanLoop clazz handlers none with
    | none => rfl
    | some record => rfl

theorem applyAliasWrites_last (a : String) :
    ∀ (ws : List Reexport) (m : List (String × (String × String))),
      alistGet? (applyAliasWrites m ws) a =
        (match (ws.filter (fun w => w.asAlias == a)).getLast? with
         | some w => some (w.fromModule, w.symbolName)
         | none => alistGet? m a)
  | [], m => rfl
  | w :: ws, m => by
    have hstep : applyAliasWrites m (w :: ws) =
        applyAliasWrites (alistSet m w.asAlias (w.fromModule, w.symbolName)) ws := rfl
    rw [hstep,
        applyAliasWrites_last a ws (alistSet m w.asAlias (w.fromModule, w.symbolName)),
        List.filter_cons]
    by_cases hw : (w.asAlias == a) = true
    · rw [if_pos hw]
      rcases hfil : ws.filter (fun w => w.asAlias == a) with _ | ⟨w2, l2⟩
      · rw [hfil]
        have ha : w.asAlias = a := beq_iff_eq.mp hw
        show alistGet? (alistSet m w.asAlias (w.fromModule, w.symbolName)) a =
            some (w.fromModule, w.symbolName)
        rw [← ha]
        exact alistGet?_set_self m w.asAlias (w.fromModule, w.symbolName)
      · rw [hfil, List.getLast?_cons_cons]
        rcases hlast : (w2 :: l2).getLast? with _ | wl
        · rw [List.getLast?_eq_none_iff] at hlast
          exact absurd hlast (by simp)
        · rfl
    · rw [if_neg hw]
      have hne : ¬w.asAlias = a := by
        intro hh
        rw [hh] at hw
        exact hw (beq_self_eq_true a)
      rcases hfil : (ws.filter (fun w => w.asAlias == a)).getLast? with _ | w'
      · rw [hfil]
        show alistGet? (alistSet m w.asAlias (w.fromModule, w.symbolName)) a = alistGet? m a
        exact alistGet?_set_ne m w.asAlias a (w.fromModule, w.symbolName) hne
      · rw [hfil]

/-- Claim C8: the per-file re-export table is written only by the resolve
pass — matching and the analyze sweep leave it unchanged — and within a pass
the last write for a given (file, alias) pair wins: looking up an alias after
a sequence of writes yields the value of the last write for that alias, or the
previous table entry when the alias was not written. -/
theorem claim8_reexport_table :
    (∀ (st : CompilerState) (cfg : Bool) (handlers : List Handler)
       (clazz : ClassDeclaration),
       ((scanClassForTraits st cfg handlers clazz).1).reexportMap = st.reexportMap) ∧
    (∀ st : CompilerState, ((analyzePass st).1).reexportMap = st.reexportMap) ∧
    (∀ (m : List (String × (String × String))) (ws : List Reexport) (a : String),
       alistGet? (applyAliasWrites m ws) a =
         (match (ws.filter (fun w => w.asAlias == a)).getLast? with
          | some w => some (w.fromModule, w.symbolName)
          | none => alistGet? m a)) :=
  ⟨scan_preserves_reexports, fun _ => rfl, fun m ws a => applyAliasWrites_last a ws m⟩

end Ngtsc

namespace Ngtsc

/-! ### Dependency-recorder lemmas -/

theorem mem_trackFileDependency (g : DepGraph) (a b : Nat) (e : Nat × Nat) :
    e ∈ trackFileDependency g a b ↔ e ∈ g ∨ e = (a, b) := by
  unfold trackFileDependency
  split
  · rename_i hmem
    constructor
    · exact Or.inl
    · rintro (he | rfl)
      · exact he
      · exact hmem
  · simp [List.mem_append]

theorem mem_trackFileDependencies (b : Nat) (e : Nat × Nat) :
    ∀ (ds : List Nat) (g : DepGraph),
      e ∈ trackFileDependencies g ds b ↔ e ∈ g ∨ ∃ d ∈ ds, e = (d, b)
  | [], g => by simp [trackFileDependencies]
  | d :: ds, g => by
    have hcons : trackFileDependencies g (d :: ds) b =
        trackFileDependencies (trackFileDependency g d b) ds b := rfl
    rw [hcons, mem_trackFileDependencies b e ds (trackFileDependency g d b),
        mem_trackFileDependency g d b e]
    simp only [List.mem_cons]
    constructor
    · rintro ((he | rfl) | ⟨d', hd', rfl⟩)
      · exact Or.inl he
      · exact Or.inr ⟨d, Or.inl rfl, rfl⟩
      · exact Or.inr ⟨d', Or.inr hd', rfl⟩
    · rintro (he | ⟨d', (rfl | hd'), rfl⟩)
      · exact Or.inl (Or.inl he)
      · exact Or.inl (Or.inr rfl)
      · exact Or.inr ⟨d', hd', rfl⟩

theorem mem_dirFold (file : Nat) (deps : List Nat) (e : Nat × Nat) :
    ∀ (dirs : List ScopeDirective) (g : DepGraph),
      e ∈ dirs.foldl
          (fun acc directive =>
            let acc1 := trackFileDependency acc directive.file file
            if directive.isComponent then trackFileDependencies acc1 deps directive.file
            else acc1) g ↔
        e ∈ g ∨ ∃ dir ∈ dirs,
          (e = (dir.file, file) ∨
           (dir.isComponent = true ∧ ∃ d ∈ deps, e = (d, dir.file)))
  | [], g => by simp
  | dir :: dirs, g => by
    rw [List.foldl_cons]
    rw [mem_dirFold file deps e dirs _]
    have hstep : ∀ acc : DepGraph,
        (e ∈ (if dir.isComponent then
                trackFileDependencies (trackFileDependency acc dir.file file) deps dir.file
              else trackFileDependency acc dir.file file) ↔
          e ∈ acc ∨ e = (dir.file, file) ∨
            (dir.isComponent = true ∧ ∃ d ∈ deps, e = (d, dir.file))) := by
      intro acc
      by_cases hcomp : dir.isComponent = true
      · rw [if_pos hcomp, mem_trackFileDependencies, mem_trackFileDependency]
        simp only [hcomp, true_and]
        tauto
      · have hcf : dir.isComponent = false := by
          cases hq : dir.isComponent
          · rfl
          · exact absurd hq hcomp
        rw [if_neg hcomp, mem_trackFileDependency]
        simp only [hcf]
        tauto
    rw [hstep g]
    simp only [List.mem_cons]
    constructor
    · rintro ((he | hd) | ⟨dir', hdir', hd'⟩)
      · exact Or.inl he
      · exact Or.inr ⟨dir, Or.inl rfl, hd⟩
      · exact Or.inr ⟨dir', Or.inr hdir', hd'⟩
    · rintro (he | ⟨dir', (rfl | hdir'), hd'⟩)
      · exact Or.inl (Or.inl he)
      · exact Or.inl (Or.inr hd')
      · exact Or.inr ⟨dir', hdir', hd'⟩

/-- Claim C7, amended: for one compilation scope with NgModule file `M`,
scope-declaration file `F` and `D` the dependencies of `F` as currently
recorded, the recorder adds exactly the edges `d → M` for `d ∈ D`, `M → F`,
`C → F` for each directive member file `C` (plus `d → C` for `d ∈ D` when that
member is a component), and `P → F` for each pipe member file `P`. -/
theorem claim7_amended_scope_edges (g : DepGraph) (s : CompilationScope) (e : Nat × Nat) :
    e ∈ recordScopeDeps g s ↔
      e ∈ g ∨
      (∃ d ∈ getFileDependencies g s.declFile, e = (d, s.ngModuleFile)) ∨
      e = (s.ngModuleFile, s.declFile) ∨
      (∃ dir ∈ s.directives,
        (e = (dir.file, s.declFile) ∨
         (dir.isComponent = true ∧
          ∃ d ∈ getFileDependencies g s.declFile, e = (d, dir.file)))) ∨
      (∃ p ∈ s.pipes, e = (p, s.declFile)) := by
  have hred : recordScopeDeps g s =
      trackFileDependencies
        (s.directives.foldl
          (fun acc directive =>
            let acc1 := trackFileDependency acc directive.file s.declFile
            if directive.isComponent then
              trackFileDependencies acc1 (getFileDependencies g s.declFile) directive.file
            else acc1)
          (trackFileDependency
            (trackFileDependencies g (getFileDependencies g s.declFile) s.ngModuleFile)
            s.ngModuleFile s.declFile))
        s.pipes s.declFile := rfl
  rw [hred, mem_trackFileDependencies,
      mem_dirFold s.declFile (getFileDependencies g s.declFile) e s.directives _,
      mem_trackFileDependency, mem_trackFileDependencies]
  simp only [or_assoc]

/-- The concrete compilation scope of the counterexample to claim C7: the
NgModule lives in file 0, the scope declaration is the component member itself
in file 1, and a pipe member lives in file 2. -/
def scopeC7 : CompilationScope :=
  { declFile := 1, ngModuleFile := 0,
    directives := [{ file := 1, isComponent := true }], pipes := [2] }

/-- Claim C7, counterexample: with NgModule file M = 0, component member file
C = 1 (which is the scope's declaration file), pipe member file P = 2 and
dependency set D = {3} of the declaration file, the recorder does not add the
claimed edges C → M = (1, 0) and P → M = (2, 0); the pipe instead contributes
P → declaration-file = (2, 1), and D → M = (3, 0) and M → C = (0, 1) are
added. -/
theorem claim7_counterexample :
    getFileDependencies [(3, 1)] scopeC7.declFile = [3] ∧
    (1, 0) ∉ recordScopeDeps [(3, 1)] scopeC7 ∧
    (2, 0) ∉ recordScopeDeps [(3, 1)] scopeC7 ∧
    (2, 1) ∈ recordScopeDeps [(3, 1)] scopeC7 ∧
    (3, 0) ∈ recordScopeDeps [(3, 1)] scopeC7 ∧
    (0, 1) ∈ recordScopeDeps [(3, 1)] scopeC7 := by decide

end Ngtsc

namespace Ngtsc

/-! ### Concrete instances used by the witnesses -/

/-- A concrete exported class declaration. -/
def clazzW : ClassDeclaration :=
  { id := 0, name := "SomeCls", file := 0, start := 5, width := 17, exported := true }

/-- An analyze capability that succeeds with payload 7. -/
def analyzeOkW : ClassDeclaration → Nat → ThrowOr AnalysisOutput :=
  fun _ _ => ThrowOr.ret { analysis := some 7, diagnostics := none, factorySymbolName := none }

/-- A compile capability producing one result named "field". -/
def compileOneW : ClassDeclaration → Option Nat → Option Nat → Nat → CompileOutput :=
  fun _ _ _ _ => CompileOutput.one { name := "field", initializer := 3 }

/-- A PRIMARY handler that detects every class. -/
def handlerP1 : Handler :=
  { name := "P1", precedence := HandlerPrecedence.PRIMARY, detect := fun _ => some 1,
    analyze := analyzeOkW, resolve := none, compile := compileOneW }

/-- A second PRIMARY handler. -/
def handlerP2 : Handler := { handlerP1 with name := "P2" }

/-- A WEAK handler. -/
def handlerWk : Handler := { handlerP1 with name := "W", precedence := HandlerPrecedence.WEAK }

/-- A diagnostic thrown by the fatally failing analyze handler. -/
def diagW : Diagnostic :=
  { code := 42, file := 0, start := 1, length := 2, messageText := "bad marker" }

/-- A handler whose analyze throws a structured fatal diagnostic. -/
def handlerFatal : Handler :=
  { handlerP1 with name := "F", analyze := fun _ _ => ThrowOr.throwFatal diagW }

/-- A handler whose analyze throws a non-diagnostic error. -/
def handlerBoom : Handler :=
  { handlerP1 with name := "B", analyze := fun _ _ => ThrowOr.throwOther "boom" }

/-- The empty orchestrator state. -/
def stEmpty : CompilerState := { classes := [], fileToClasses := [], reexportMap := [] }

/-- The freshly detected trait of `handlerP1`. -/
def traitOkW : Trait := Trait.pending handlerP1 1

/-- The record after scanning `[handlerWk, handlerP1]` (scenario A). -/
def recAW : ClassRecord :=
  { node := clazzW, traits := [traitOkW], metaDiagnostics := none,
    hasWeakHandlers := false, hasPrimaryHandler := true }

/-- The state after scanning class `clazzW` with `[handlerWk, handlerP1]`. -/
def stAW : CompilerState :=
  { classes := [(clazzW, recAW)], fileToClasses := [(0, [clazzW])], reexportMap := [] }

/-- The collision record after scanning `[handlerP1, handlerP2]` (scenario B). -/
def recBW : ClassRecord :=
  { node := clazzW, traits := [], metaDiagnostics := some [collisionDiag clazzW],
    hasWeakHandlers := false, hasPrimaryHandler := true }

/-- The state after the scenario-B scan. -/
def stBW : CompilerState :=
  { classes := [(clazzW, recBW)], fileToClasses := [(0, [clazzW])], reexportMap := [] }

/-- `traitOkW` after a successful analyze. -/
def traitAnW : Trait :=
  { handler := handlerP1, detected := 1, state := TraitState.ANALYZED,
    analysis := some 7, resolution := none, diagnostics := [] }

/-- The record and state after analyzing `stAW`. -/
def recAnW : ClassRecord := { recAW with traits := [traitAnW] }

def stAnW : CompilerState :=
  { classes := [(clazzW, recAnW)], fileToClasses := [(0, [clazzW])], reexportMap := [] }

/-- `traitAnW` after resolution (no resolve capability, null resolution). -/
def traitResW : Trait := { traitAnW with state := TraitState.RESOLVED }

/-- The record and state after resolving `stAnW`. -/
def recResW : ClassRecord := { recAW with traits := [traitResW] }

def stResW : CompilerState :=
  { classes := [(clazzW, recResW)], fileToClasses := [(0, [clazzW])], reexportMap := [] }

/-- A record holding the trait of the handler with a non-diagnostic failure. -/
def recBoomW : ClassRecord := { recAW with traits := [Trait.pending handlerBoom 1] }

/-- The compile argument for `clazzW` (its own original node). -/
def dW : InputDecl :=
  { clazz := clazzW, original := clazzW, clazzIsNamedClass := true,
    originalIsNamedClass := true }

/-- The single result that `handlerP1` compiles. -/
def resW : CompileResult := { name := "field", initializer := 3 }

theorem recAW_midGood : midGood clazzW recAW := by
  refine ⟨rfl, rfl, ?_, ⟨?_, ?_, ?_, ?_⟩, ?_⟩
  · simp [recAW]
  · intro _
    exact ⟨traitOkW, by simp [recAW], rfl⟩
  · intro h
    simp [recAW] at h
  · intro h
    simp [recAW] at h
  · intro _ t ht
    simp only [recAW, List.mem_singleton] at ht
    subst ht
    rfl
  · decide

end Ngtsc

namespace Ngtsc

/-- Witness for claim C1: scenario B (two PRIMARY handlers) satisfies the
theorem's hypotheses, and a PRIMARY handler hitting a record that already has
a PRIMARY trait collides regardless of the remaining registry. -/
theorem claim1_witness :
    (countPrimary recBW.traits ≤ 1 ∧
     (∀ ds, recBW.metaDiagnostics = some ds →
        ds = [collisionDiag clazzW] ∧ recBW.traits = [])) ∧
    scanLoop clazzW [handlerP2] (some recAW) =
      some { recAW with metaDiagnostics := some [collisionDiag clazzW], traits := [] } :=
  ⟨claim1_primary_collision.1 stEmpty true [handlerP1, handlerP2] clazzW stBW recBW rfl,
   claim1_primary_collision.2 clazzW handlerP2 [] recAW recAW_midGood rfl rfl ⟨1, rfl⟩⟩

/-- Witness for claim C2: resolving a PENDING trait and a RESOLVED trait both
throw, and a second global `resolve()` after a successful first one throws the
"already resolved" error. -/
theorem claim2_witness :
    resolveTrait clazzW traitOkW =
      Except.error
        ("Resolving a trait that has not been analyzed: " ++ clazzW.name ++ " / " ++
          traitOkW.handler.name) ∧
    resolveTrait clazzW traitResW =
      Except.error "Resolving an already resolved trait" ∧
    TraitCompiler.resolve stResW [] [] =
      Except.error "Resolving an already resolved trait" :=
  ⟨claim2_resolve_internal_errors.1 clazzW traitOkW rfl,
   claim2_resolve_internal_errors.2.1 clazzW traitResW rfl,
   claim2_resolve_internal_errors.2.2 stAnW [] [] stResW [] [] [] rfl
     ⟨(clazzW, recResW), List.mem_singleton.mpr rfl, traitResW,
      List.mem_singleton.mpr rfl, rfl⟩⟩

/-- Witness for claim C3: after scenario A the final record holds no WEAK
trait, and a WEAK handler matching a record without WEAK traits leaves the
scan unchanged. -/
theorem claim3_witness :
    (∀ t ∈ recAW.traits, t.handler.precedence ≠ HandlerPrecedence.WEAK) ∧
    scanLoop clazzW [handlerWk] (some recAW) = scanLoop clazzW [] (some recAW) :=
  ⟨claim3_weak_precedence.1 stEmpty true [handlerWk, handlerP1] clazzW stAW recAW rfl
     ⟨handlerP1, List.mem_cons_of_mem _ (List.mem_cons_self _ _), by decide, 1, rfl⟩,
   claim3_weak_precedence.2 clazzW handlerWk [] recAW rfl rfl⟩

/-- Witness for claim C4: a fatal diagnostic is caught into ERRORED, a
non-diagnostic exception propagates, analysis continues past a caught
failure, and an uncaught failure preserves the progress before it. -/
theorem claim4_witness :
    analyzeTrait clazzW (Trait.pending handlerFatal 1) =
      Except.ok ((Trait.pending handlerFatal 1).toErrored [diagW]) ∧
    analyzeTrait clazzW (Trait.pending handlerBoom 1) = Except.error "boom" ∧
    analyzeTraits clazzW (traitOkW :: [traitOkW]) =
      (traitAnW :: (analyzeTraits clazzW [traitOkW]).1,
       (analyzeTraits clazzW [traitOkW]).2) ∧
    analyzeTraits clazzW ([traitOkW] ++ Trait.pending handlerBoom 1 :: [traitOkW]) =
      ((analyzeTraits clazzW [traitOkW]).1 ++ Trait.pending handlerBoom 1 :: [traitOkW],
       some "boom") ∧
    analyzeRecords ([(clazzW, recAW)] ++ (clazzW, recBoomW) :: []) =
      ((analyzeRecords [(clazzW, recAW)]).1 ++ (clazzW, recBoomW) :: [], some "boom") :=
  ⟨claim4_analyze_error_handling.1 clazzW (Trait.pending handlerFatal 1) diagW rfl rfl,
   claim4_analyze_error_handling.2.1 clazzW (Trait.pending handlerBoom 1) "boom" rfl rfl,
   claim4_analyze_error_handling.2.2.1 clazzW traitOkW [traitOkW] traitAnW rfl,
   claim4_analyze_error_handling.2.2.2.1 clazzW [traitOkW] (Trait.pending handlerBoom 1)
     [traitOkW] "boom" rfl rfl,
   claim4_analyze_error_handling.2.2.2.2 [(clazzW, recAW)] clazzW recBoomW recBoomW []
     "boom" rfl rfl⟩

/-- Witness for claim C5: a concrete compile call returns a result list with
pairwise-distinct names. -/
theorem claim5_witness : (([resW] : List CompileResult).map CompileResult.name).Nodup :=
  claim5_compile_result_names_nodup stResW [] dW 0 [resW] [(clazzW, [resW])] rfl

/-- Witness for claim C6: with a record present, compile registers the field
set keyed by the original declaration and returns the non-empty result
list. -/
theorem claim6_witness :
    (TraitCompiler.compile stResW [] dW 0).2 =
      [] ++ [(clazzW, compileTraits clazzW 0 recResW.traits [])] ∧
    (compileTraits clazzW 0 recResW.traits [] ≠ [] →
       (TraitCompiler.compile stResW [] dW 0).1 =
         some (compileTraits clazzW 0 recResW.traits [])) :=
  ⟨((claim6_compile_null_and_registration stResW [] dW 0 rfl rfl).2 recResW rfl).1,
   ((claim6_compile_null_and_registration stResW [] dW 0 rfl rfl).2 recResW rfl).2.2⟩

/-- Witness for claim C9: the scenario-A record has consistent derived
flags. -/
theorem claim9_witness :
    (recAW.hasPrimaryHandler = true ↔
      ∃ t ∈ recAW.traits, t.handler.precedence = HandlerPrecedence.PRIMARY) ∧
    (recAW.hasWeakHandlers = true ↔
      (recAW.traits ≠ [] ∧
       ∀ t ∈ recAW.traits, t.handler.precedence = HandlerPrecedence.WEAK)) :=
  claim9_derived_flags stEmpty true [handlerWk, handlerP1] clazzW stAW recAW rfl rfl

/-- Witness for claim C10: the collision class of scenario B is present in
both maps after the scan, and the analyze and resolve passes preserve the
structures on a concrete state. -/
theorem claim10_witness :
    (alistGet? stBW.classes clazzW = some recBW ∧
     ∃ s, alistGet? stBW.fileToClasses clazzW.file = some s ∧ clazzW ∈ s) ∧
    ((analyzePass stAW).1.fileToClasses = stAW.fileToClasses ∧
     (analyzePass stAW).1.classes.map Prod.fst = stAW.classes.map Prod.fst) ∧
    (stResW.fileToClasses = stAnW.fileToClasses ∧
     stResW.classes.map Prod.fst = stAnW.classes.map Prod.fst) :=
  ⟨claim10_maps_persist.1 stEmpty true [handlerP1, handlerP2] clazzW stBW recBW rfl,
   claim10_maps_persist.2.1 stAW,
   claim10_maps_persist.2.2 stAnW [] [] stResW [] rfl⟩

end Ngtsc
